import Mathlib

/-!
Verification of the `src/automation` core of the M19-Pro trading system:
signal model and tolerant parsing (`models.py`), the rule-matching engine
(`rule_engine.py`), the paginated/retrying signal fetcher
(`signal_fetcher.py`) and the replace-and-expire state store (`storage.py`).

The Python code is shallowly embedded:
- JSON-deserializable payloads become the inductive `JValue` (JSON numbers
  are modelled as integers; no claim depends on fractional values);
- Python `str.strip()` / `str.upper()` become `pyStrip` / `pyUpper`
  (structural, so they evaluate in the kernel);
- Python dicts become association lists with first-key-wins lookup;
- wall-clock timestamps become natural numbers (seconds); SQLite tables
  become lists of row structures; raising becomes `Except`.
Fields that no claim touches and that have no algorithmic content
(`RuleMatchResult.debug`, `matched_at` timestamps inside results) are
omitted from the embedded records; everything the control flow reads is
kept.
-/

namespace M19

/-- JSON-deserializable Python value (`json.loads` output): `None`, `bool`,
number, `str`, `list`, `dict`. Numbers are modelled as `Int`. -/
inductive JValue where
  | null
  | bool (b : Bool)
  | num (n : Int)
  | str (s : String)
  | arr (xs : List JValue)
  | obj (fields : List (String × JValue))

mutual

/-- Structural boolean equality on `JValue` (for decidability). -/
def jeq : JValue → JValue → Bool
  | .null, .null => true
  | .bool a, .bool b => a == b
  | .num a, .num b => a == b
  | .str a, .str b => a == b
  | .arr a, .arr b => jeqList a b
  | .obj a, .obj b => jeqFields a b
  | _, _ => false

/-- Elementwise `jeq` on JSON arrays. -/
def jeqList : List JValue → List JValue → Bool
  | [], [] => true
  | x :: xs, y :: ys => jeq x y && jeqList xs ys
  | _, _ => false

/-- Elementwise `jeq` on JSON object fields. -/
def jeqFields : List (String × JValue) → List (String × JValue) → Bool
  | [], [] => true
  | (k, v) :: xs, (l, w) :: ys => k == l && jeq v w && jeqFields xs ys
  | _, _ => false

end

mutual

/-- `jeq` decides equality (proof-valued definition, used by the
`DecidableEq` instance below). -/
def jeq_iff : (a b : JValue) → (jeq a b = true ↔ a = b)
  | .null, b => by cases b <;> simp [jeq]
  | .bool x, b => by cases b <;> simp [jeq]
  | .num x, b => by cases b <;> simp [jeq]
  | .str x, b => by cases b <;> simp [jeq]
  | .arr xs, b => by
      cases b <;> simp [jeq]
      case arr ys => exact jeqList_iff xs ys
  | .obj fs, b => by
      cases b <;> simp [jeq]
      case obj gs => exact jeqFields_iff fs gs

/-- `jeqList` decides equality. -/
def jeqList_iff : (xs ys : List JValue) → (jeqList xs ys = true ↔ xs = ys)
  | [], [] => by simp [jeqList]
  | [], _ :: _ => by simp [jeqList]
  | _ :: _, [] => by simp [jeqList]
  | x :: xs, y :: ys => by
      simp [jeqList, Bool.and_eq_true, jeq_iff x y, jeqList_iff xs ys]

/-- `jeqFields` decides equality. -/
def jeqFields_iff : (xs ys : List (String × JValue)) → (jeqFields xs ys = true ↔ xs = ys)
  | [], [] => by simp [jeqFields]
  | [], _ :: _ => by simp [jeqFields]
  | _ :: _, [] => by simp [jeqFields]
  | (k, v) :: xs, (l, w) :: ys => by
      simp [jeqFields, Bool.and_eq_true, jeq_iff v w, jeqFields_iff xs ys, Prod.ext_iff,
        and_assoc]

end

instance : DecidableEq JValue := fun a b => decidable_of_iff (jeq a b = true) (jeq_iff a b)

instance {ε α : Type} [DecidableEq ε] [DecidableEq α] : DecidableEq (Except ε α) := fun a b =>
  match a, b with
  | .ok x, .ok y => decidable_of_iff (x = y) (by simp)
  | .error e, .error f => decidable_of_iff (e = f) (by simp)
  | .ok _, .error _ => isFalse (by simp)
  | .error _, .ok _ => isFalse (by simp)

/-- Structural insertion of an element into a `le`-sorted list. -/
def insSorted (le : α → α → Bool) (x : α) : List α → List α
  | [] => [x]
  | y :: ys => if le x y then x :: y :: ys else y :: insSorted le x ys

/-- Python `sorted`, as a structural insertion sort (stable, ascending by
`le`), so that it evaluates in the kernel. -/
def pySorted (le : α → α → Bool) : List α → List α
  | [] => []
  | x :: xs => insSorted le x (pySorted le xs)

/-- Structural lexicographic strict order on character lists (Python
string `<`). -/
def strLtChars : List Char → List Char → Bool
  | [], [] => false
  | [], _ :: _ => true
  | _ :: _, [] => false
  | a :: as, b :: bs =>
    if a.toNat < b.toNat then true
    else if b.toNat < a.toNat then false
    else strLtChars as bs

/-- Python string `<=`, structurally. -/
def strLeb (a b : String) : Bool := !(strLtChars b.data a.data)

/-- Python `str.strip()` (whitespace from both ends), written structurally
on the character list so it evaluates in the kernel. -/
def pyStrip (s : String) : String :=
  ⟨((s.data.dropWhile Char.isWhitespace).reverse.dropWhile Char.isWhitespace).reverse⟩

/-- Python `str.upper()` (ASCII-level, which is all the repository uses). -/
def pyUpper (s : String) : String := ⟨s.data.map Char.toUpper⟩

/-- `value.strip().upper()` — the normalisation the repository applies to
every string used for filtering. -/
def normUp (s : String) : String := pyUpper (pyStrip s)

/-- An ASCII apostrophe, used by the Python `repr` rendering below. -/
def squote : String := String.singleton (Char.ofNat 39)

mutual

/-- Python `repr` of a JSON-deserializable value (the rendering `str` uses
for elements nested inside lists/dicts). -/
def pyRepr : JValue → String
  | .null => "None"
  | .bool b => if b then "True" else "False"
  | .num n => toString n
  | .str s => squote ++ s ++ squote
  | .arr xs => "[" ++ pyReprList xs ++ "]"
  | .obj fs => "\x7b" ++ pyReprFields fs ++ "\x7d"

/-- Comma-separated `repr` of list elements. -/
def pyReprList : List JValue → String
  | [] => ""
  | [x] => pyRepr x
  | x :: y :: xs => pyRepr x ++ ", " ++ pyReprList (y :: xs)

/-- Comma-separated `repr` of dict entries. -/
def pyReprFields : List (String × JValue) → String
  | [] => ""
  | [(k, v)] => squote ++ k ++ squote ++ ": " ++ pyRepr v
  | (k, v) :: y :: xs => squote ++ k ++ squote ++ ": " ++ pyRepr v ++ ", " ++ pyReprFields (y :: xs)

end

/-- Python `str()` of a JSON-deserializable value: the string itself for
`str`, `repr`-style rendering otherwise (`str(None) = "None"`, etc.). -/
def pyStr : JValue → String
  | .str s => s
  | v => pyRepr v

/-- Truthiness of a Python value deserialized from JSON (`bool(v)`). -/
def jTruthy : JValue → Bool
  | .null => false
  | .bool b => b
  | .num n => decide (n ≠ 0)
  | .str s => decide (s ≠ "")
  | .arr xs => !xs.isEmpty
  | .obj fs => !fs.isEmpty

/-- `key in d`: key presence in a dict, first binding wins (Python dicts
have unique keys; on a duplicated key our model reads the first). -/
def jlookup (fields : List (String × JValue)) (k : String) : Option JValue :=
  (fields.find? (fun p => p.1 == k)).map (·.2)

/-- `d.get(key)`: `None` both when the key is absent and when it maps to
JSON `null` (Python cannot tell the two apart through `.get`). -/
def jget (fields : List (String × JValue)) (k : String) : Option JValue :=
  match jlookup fields k with
  | some .null => none
  | x => x

/-- `int(v)` on a JSON-deserialized value: succeeds on bools, integers and
integer-shaped strings, raises (modelled as `none`) otherwise. -/
def pyToInt : JValue → Option Int
  | .bool b => some (if b then 1 else 0)
  | .num n => some n
  | .str s => (pyStrip s).toInt?
  | _ => none

/-! ## models.py — data model and tolerant parsing -/

/-- `TimeframeSignal` (models.py): one timeframe's verdict. Pass-through
fields keep the raw value-or-`None` the Python `dict.get` produced. -/
structure TimeframeSignal where
  confidence : Option JValue
  entry : Option JValue
  risk_reward : Option JValue
  signal : String
  stop_loss : Option JValue
  strength : Option JValue
  take_profit : Option JValue
  trend : Option String

/-- `Signal` (models.py): one symbol's parsed picture. `timeframes` keeps
dict insertion order; `raw` preserves the original item. -/
structure Signal where
  symbol : String
  bias : String
  market_phase : Option String
  confidence : Option Int
  is_stale : Option Bool
  price : Option Int
  timeframes : List (String × TimeframeSignal)
  raw : List (String × JValue)

/-- `AutomationRule` (models.py): a user-owned filter. -/
structure AutomationRule where
  id : Int
  user_id : String
  name : String
  enabled : Bool
  symbols : List String
  biases : List String
  market_phases : List String
  timeframe_chain : List String

/-- `RuleMatchResult` (models.py) minus the `debug` trace and `matched_at`
timestamp, which no claim consults. -/
structure RuleMatchResult where
  rule_id : Int
  rule_name : String
  symbol : String
  direction : Option String
  matched : Bool
  reasons : List String

/-- `_to_str_upper` (models.py): `None → None`, otherwise
`str(value).strip().upper()`. The argument is the value-or-`None` that a
`dict.get` produced. -/
def to_str_upper : Option JValue → Option String
  | none => none
  | some v => some (normUp (pyStr v))

/-- Python `x or y` idiom on an optional string: `y` when `x` is `None` or
empty. -/
def orElseStr (x : Option String) (y : String) : String :=
  match x with
  | none => y
  | some s => if s = "" then y else s

/-- Upsert into an association list, mirroring Python `d[k] = v` (replaces
in place on an existing key, appends otherwise). -/
def alistSet (m : List (String × TimeframeSignal)) (k : String) (v : TimeframeSignal) :
    List (String × TimeframeSignal) :=
  if m.any (fun p => p.1 == k) then
    m.map (fun p => if p.1 == k then (k, v) else p)
  else
    m ++ [(k, v)]

/-- The `TimeframeSignal(...)` construction of `parse_signal` for one
timeframe payload dict: `signal` degrades to `"NEUTRAL"` when
missing/`null`/empty-after-strip. -/
def parseTFPayload (fs : List (String × JValue)) : TimeframeSignal :=
  { confidence := jget fs "confidence"
    entry := jget fs "entry"
    risk_reward := jget fs "risk_reward"
    signal := orElseStr (to_str_upper (jget fs "signal")) "NEUTRAL"
    stop_loss := jget fs "stop_loss"
    strength := jget fs "strength"
    take_profit := jget fs "take_profit"
    trend := to_str_upper (jget fs "trend") }

/-- The `tf_map` loop of `parse_signal`: non-dict timeframe payloads are
skipped; the key is `str(tf).strip().upper()`. -/
def parseTimeframes : List (String × JValue) → List (String × TimeframeSignal)
  | [] => []
  | (tf, payload) :: rest =>
    match payload with
    | .obj fs => alistSet (parseTimeframes rest) (normUp (pyStr (.str tf))) (parseTFPayload fs)
    | _ => parseTimeframes rest

/-- `isinstance(v, (int, float))` gate used for `confidence` and `price`
(JSON numbers only; bools are `int` in Python, so they pass too). -/
def numGate : Option JValue → Option Int
  | some (.num n) => some n
  | some (.bool b) => some (if b then 1 else 0)
  | _ => none

/-- `isinstance(v, bool)` gate used for `is_stale`. -/
def boolGate : Option JValue → Option Bool
  | some (.bool b) => some b
  | _ => none

/-- `parse_signal` (models.py): parse one signal dict. -/
def parse_signal (item : List (String × JValue)) : Signal :=
  let timeframes :=
    match jget item "timeframes" with
    | some (.obj tfs) => parseTimeframes tfs
    | _ => []
  { symbol := normUp (pyStr ((jlookup item "symbol").getD (.str "")))
    bias := (to_str_upper (jget item "bias")).getD ""
    market_phase := to_str_upper (jget item "market_phase")
    confidence := numGate (jget item "confidence")
    is_stale := boolGate (jget item "is_stale")
    price := numGate (jget item "price")
    timeframes := timeframes
    raw := item }

/-- The `for key in ("data", "results", "items", "symbols"): if key in
payload` scan shared by `parse_signals` and `_detect_next`: the value under
the first present key (key presence, so a `null` value is still "found"). -/
def firstCandidate (fs : List (String × JValue)) : Option JValue :=
  match jlookup fs "data" with
  | some v => some v
  | none =>
    match jlookup fs "results" with
    | some v => some v
    | none =>
      match jlookup fs "items" with
      | some v => some v
      | none => jlookup fs "symbols"

/-- The item-extraction step of `parse_signals`: for a dict payload, the
value under the first present candidate key; otherwise the payload
itself. -/
def extractItems (payload : JValue) : JValue :=
  match payload with
  | .obj fs => (firstCandidate fs).getD (.obj fs)
  | v => v

/-- The per-item keep/skip decision of `parse_signals`: dict items whose
parsed symbol is non-empty are kept, everything else is skipped. -/
def keepItem (item : JValue) : Option Signal :=
  match item with
  | .obj fs =>
      let s := parse_signal fs
      if s.symbol ≠ "" then some s else none
  | _ => none

/-- `parse_signals` (models.py): total parsing of an arbitrary payload. -/
def parse_signals (payload : JValue) : List Signal :=
  match extractItems payload with
  | .arr items => items.filterMap keepItem
  | _ => []

/-! ## rule_engine.py — rule evaluation and aggregation -/

/-- `_direction_for_bias` (rule_engine.py). -/
def direction_for_bias (bias : String) : Option String :=
  let b := normUp bias
  if b = "BULLISH" then some "buy"
  else if b = "BEARISH" then some "sell"
  else none

/-- `_expected_tf_signal` (rule_engine.py). -/
def expected_tf_signal (direction : String) : String :=
  if direction = "buy" then "BUY" else "SELL"

/-- The `{x.strip().upper() for x in xs if x}` comprehension applied to
every rule filter list. -/
def normFilter (xs : List String) : List String :=
  (xs.filter (fun s => s ≠ "")).map normUp

/-- An early-return (`matched = False`, `direction = None`) result of
`evaluate_rule`; every failing branch builds exactly this shape. -/
def noTrade (rule : AutomationRule) (sig : Signal) (reason : String) : RuleMatchResult :=
  { rule_id := rule.id
    rule_name := rule.name
    symbol := sig.symbol
    direction := none
    matched := false
    reasons := [reason] }

/-- `signal.timeframes.get(tf)`. -/
def tfGet (m : List (String × TimeframeSignal)) (tf : String) : Option TimeframeSignal :=
  (m.find? (fun p => p.1 == tf)).map (·.2)

/-- The `for tf in tf_chain` loop of `evaluate_rule`: full-chain alignment
with early return on a missing, `NEUTRAL`/empty, or misaligned timeframe;
an empty remaining chain yields the matched result. -/
def alignChain (rule : AutomationRule) (sig : Signal) (direction expected : String) :
    List String → RuleMatchResult
  | [] =>
    { rule_id := rule.id
      rule_name := rule.name
      symbol := sig.symbol
      direction := some direction
      matched := true
      reasons := ["Matched (bias + market_phase + timeframe alignment)"] }
  | tf :: rest =>
    match tfGet sig.timeframes tf with
    | none => noTrade rule sig ("Missing timeframe " ++ tf ++ " in signal payload")
    | some ts =>
      let v := normUp ts.signal
      if v = "NEUTRAL" ∨ v = "" then
        noTrade rule sig ("Timeframe " ++ tf ++ " is NEUTRAL (no alignment)")
      else if v ≠ expected then
        noTrade rule sig ("Timeframe " ++ tf ++ " signal " ++ v ++ " != expected " ++ expected)
      else alignChain rule sig direction expected rest

/-- `evaluate_rule` (rule_engine.py): short-circuiting checklist, in source
order. -/
def evaluate_rule (rule : AutomationRule) (sig : Signal) : RuleMatchResult :=
  if !rule.enabled then noTrade rule sig "Rule is disabled"
  else if sig.is_stale = some true then noTrade rule sig "Signal is stale (not active)"
  else if rule.symbols ≠ [] ∧ sig.symbol ∉ normFilter rule.symbols then
    noTrade rule sig "Symbol not selected by rule"
  else
    let bias := normUp sig.bias
    if bias = "NEUTRAL" ∨ bias = "PENDING" ∨ bias = "" then
      noTrade rule sig ("Signal bias " ++ bias ++ " treated as no-trade")
    else if rule.biases ≠ [] ∧ bias ∉ normFilter rule.biases then
      noTrade rule sig "Bias filter did not match"
    else
      match direction_for_bias bias with
      | none => noTrade rule sig "Unrecognized bias direction (no-trade)"
      | some direction =>
        let phase := normUp ((sig.market_phase).getD "")
        if rule.market_phases ≠ [] ∧ phase ∉ normFilter rule.market_phases then
          noTrade rule sig "Market phase filter did not match"
        else
          let tf_chain := normFilter rule.timeframe_chain
          if tf_chain = [] then noTrade rule sig "Rule has no timeframe configured"
          else alignChain rule sig direction (expected_tf_signal direction) tf_chain

/-- One symbol's accumulator in `evaluate_rules` (`activation[symbol]`).
The three Python sets are modelled as duplicate-free lists. -/
structure Activation where
  symbol : String
  directions : List String
  matched_rule_ids : List Int
  matched_rule_names : List String
  market_phase : Option String
  bias : String
  confidence : Option Int
  timeframes : List String

/-- A published active-pair entry (json-safe dict built by
`evaluate_rules`). -/
structure ActivePair where
  symbol : String
  direction : String
  matched_rule_ids : List Int
  matched_rule_names : List String
  market_phase : Option String
  bias : String
  confidence : Option Int
  timeframes : List String

/-- `set.add`: insert if absent (Python sets are unordered; only the
element collection matters downstream, where every use is sorted or
counted). -/
def setAdd [DecidableEq α] (xs : List α) (x : α) : List α :=
  if x ∈ xs then xs else xs ++ [x]

/-- `activation.setdefault(symbol, {...})` followed by the three `add`
calls, for one matching result. -/
def addMatch (act : List (String × Activation)) (rule : AutomationRule) (sig : Signal)
    (r : RuleMatchResult) : List (String × Activation) :=
  let base : Activation :=
    match (act.find? (fun p => p.1 == sig.symbol)).map (·.2) with
    | some e => e
    | none =>
      { symbol := sig.symbol
        directions := []
        matched_rule_ids := []
        matched_rule_names := []
        market_phase := sig.market_phase
        bias := sig.bias
        confidence := sig.confidence
        timeframes := rule.timeframe_chain }
  let e :=
    { base with
      directions := setAdd base.directions ((r.direction).getD "")
      matched_rule_ids := setAdd base.matched_rule_ids r.rule_id
      matched_rule_names := setAdd base.matched_rule_names r.rule_name }
  if act.any (fun p => p.1 == sig.symbol) then
    act.map (fun p => if p.1 == sig.symbol then (sig.symbol, e) else p)
  else
    act ++ [(sig.symbol, e)]

/-- The body of the nested `for rule in rules: for sig in signals` loop,
applied to one `(rule, signal)` pair: cheap symbol prefilter, evaluate,
and on a match extend the result list and the activation map. -/
def stepPair (st : List RuleMatchResult × List (String × Activation))
    (p : AutomationRule × Signal) : List RuleMatchResult × List (String × Activation) :=
  let (rule, sig) := p
  if rule.symbols ≠ [] ∧ sig.symbol ∉ normFilter rule.symbols then st
  else
    let r := evaluate_rule rule sig
    if r.matched then (st.1 ++ [r], addMatch st.2 rule sig r) else st

/-- The `(rule, signal)` pairs in the order the nested loops visit them. -/
def rulePairs (signals : List Signal) (rules : List AutomationRule) :
    List (AutomationRule × Signal) :=
  rules.flatMap (fun rule => signals.map (fun sig => (rule, sig)))

/-- The conflict-resolution pass of `evaluate_rules`, for one accumulated
entry: `directions = sorted([d for d in dirs if d])`, publish only when
`len(set(directions)) == 1` — i.e. the sorted list is non-empty and all
its elements equal the first — with `direction = directions[0]`. -/
def resolveEntry (e : Activation) : Option ActivePair :=
  let directions := pySorted strLeb (e.directions.filter (fun d => d ≠ ""))
  match directions with
  | [] => none
  | d :: rest =>
    if rest.all (fun x => x == d) then
      some
        { symbol := e.symbol
          direction := d
          matched_rule_ids := pySorted (fun a b => a ≤ b) e.matched_rule_ids
          matched_rule_names := pySorted strLeb e.matched_rule_names
          market_phase := e.market_phase
          bias := e.bias
          confidence := e.confidence
          timeframes := e.timeframes }
    else none

/-- `evaluate_rules` (rule_engine.py): evaluate all rules across all
signals, then resolve conflicts into the active-pair map (an association
list keyed by symbol, in activation insertion order). -/
def evaluate_rules (signals : List Signal) (rules : List AutomationRule) :
    List RuleMatchResult × List (String × ActivePair) :=
  let st := (rulePairs signals rules).foldl stepPair ([], [])
  (st.1, st.2.filterMap (fun p => (resolveEntry p.2).map (fun ap => (p.1, ap))))

/-! ## signal_fetcher.py — pagination and retries

`max_retries` and `max_pages` are modelled as `Nat`: the only constructs
that consume them are `range(1, max_retries + 1)` and
`pages_fetched < max_pages`, through which every non-positive `int`
behaves exactly like `0`. `backoff_seconds` (a Python float) is modelled
as a rational; the upstream server is an oracle from request to outcome. -/

/-- The fetcher settings consulted by the embedded code paths
(`FetchConfig`, signal_fetcher.py). -/
structure FetchConfig where
  signals_url : Option String
  page_size : Int
  max_retries : Nat
  backoff_seconds : ℚ
  max_pages : Nat

/-- The `"next"`-URL probe of `_detect_next`: a `str`-typed, non-empty
after strip `next` field. -/
def nextUrlOf (fs : List (String × JValue)) : Option String :=
  match jget fs "next" with
  | some (.str s) => if pyStrip s = "" then none else some (pyStrip s)
  | _ => none

/-- The `page`/`total_pages` probe of `_detect_next`: yields the next page
number when both convert to truthy ints with `page < total_pages`; a
conversion error (`int()` raising) nullifies both. -/
def pageTotalAdvance (fs : List (String × JValue)) : Option Int :=
  let pageVal := jget fs "page"
  let tpVal :=
    match jget fs "total_pages" with
    | some v => if jTruthy v then some v else jget fs "pages"
    | none => jget fs "pages"
  let pageConv : Option (Option Int) :=
    match pageVal with
    | none => some none
    | some v => (pyToInt v).map some
  let tpConv : Option (Option Int) :=
    match tpVal with
    | none => some none
    | some v => (pyToInt v).map some
  match pageConv, tpConv with
  | some (some p), some (some t) => if p ≠ 0 ∧ t ≠ 0 ∧ p < t then some (p + 1) else none
  | _, _ => none

/-- `_detect_next` (signal_fetcher.py): decide the next request, in source
order — list payloads stop, a `next` URL wins, then `page`/`total_pages`,
then the full-page heuristic (`len(items) >= page_size`). -/
def detect_next (page_size : Int) (payload : JValue) (current_url : String)
    (current_page : Option Int) : Option String × Option Int :=
  match payload with
  | .obj fs =>
      match nextUrlOf fs with
      | some u => (some u, none)
      | none =>
        match pageTotalAdvance fs with
        | some p1 => (some current_url, some p1)
        | none =>
          match firstCandidate fs with
          | some (.arr xs) =>
              if page_size ≤ (xs.length : Int) then
                (some current_url, some (match current_page with | none => 2 | some cp => cp + 1))
              else (none, none)
          | _ => (none, none)
  | _ => (none, none)

/-- The `for attempt in range(1, max_retries + 1)` loop of
`_get_with_retries`: `resp` is the transport oracle per attempt number,
`remaining` the attempts left. Returns (outcome, attempts performed,
backoff sleeps in order). -/
def retryGo (resp : Nat → Except String JValue) (base : ℚ) :
    Nat → Nat → List ℚ → Except String JValue × Nat × List ℚ
  | attempt, 0, log => (.error "Failed to fetch signals after retries", attempt - 1, log)
  | attempt, remaining + 1, log =>
    match resp attempt with
    | .ok v => (.ok v, attempt, log)
    | .error _ => retryGo resp base (attempt + 1) remaining (log ++ [base * 2 ^ (attempt - 1)])

/-- `_get_with_retries` (signal_fetcher.py), abstracted over the transport
oracle. -/
def get_with_retries (resp : Nat → Except String JValue) (max_retries : Nat) (base : ℚ) :
    Except String JValue × Nat × List ℚ :=
  retryGo resp base 1 max_retries []

/-- The `while next_url and pages_fetched < max_pages` loop of
`fetch_all`: `fuel = max_pages - pages_fetched`; each iteration issues one
page request (`get`), accumulates parsed signals, raising propagates. -/
def fetchLoop (get : String → Option Int → Except String JValue) (page_size : Int) :
    Nat → String → Option Int → List Signal → Nat → Except String (List Signal × Nat)
  | 0, _, _, acc, pages => .ok (acc, pages)
  | fuel + 1, url, page, acc, pages =>
    match get url page with
    | .error e => .error e
    | .ok payload =>
      let acc2 := acc ++ parse_signals payload
      match detect_next page_size payload url page with
      | (none, _) => .ok (acc2, pages + 1)
      | (some u, p) => fetchLoop get page_size fuel u p acc2 (pages + 1)

/-- `fetch_all` (signal_fetcher.py): raise when no URL is configured, else
run the pagination loop from `(signals_url, page 1)`. Returns the signal
list and `pages_fetched`. -/
def fetch_all (get : String → Option Int → Except String JValue) (cfg : FetchConfig) :
    Except String (List Signal × Nat) :=
  let u := (cfg.signals_url).getD ""
  if u = "" then .error "GSIGNALX_SIGNALS_URL is not configured"
  else fetchLoop get cfg.page_size cfg.max_pages u (some 1) [] 0

/-! ## storage.py — rules table and active-pairs table

Timestamps are modelled as integers; the JSON-encoded list columns are
modelled by their decoded values (the encoding is injective and no claim
reads the raw text). -/

/-- A row of `automation_rules`. -/
structure DBRule where
  id : Int
  user_id : String
  name : String
  enabled : Bool
  symbols_json : List String
  biases_json : List String
  phases_json : List String
  timeframes_json : List String

/-- The optional keyword arguments of `update_rule`. -/
structure RuleUpdate where
  name : Option String
  enabled : Option Bool
  symbols : Option (List String)
  biases : Option (List String)
  phases : Option (List String)
  timeframes : Option (List String)

/-- `name.strip() or "Rule"` — the name normalisation of
`create_rule`/`update_rule`. -/
def nameStore (n : String) : String :=
  if pyStrip n = "" then "Rule" else pyStrip n

/-- Whether `update_rule` collected any `SET` clause. -/
def hasUpdates (u : RuleUpdate) : Bool :=
  u.name.isSome || u.enabled.isSome || u.symbols.isSome || u.biases.isSome ||
    u.phases.isSome || u.timeframes.isSome

/-- The per-row effect of the `UPDATE ... SET` statement of `update_rule`
on a matching row (list fields stored via the same
`[x.strip().upper() for x in xs if x]` comprehension as `create_rule`). -/
def applyUpdate (u : RuleUpdate) (r : DBRule) : DBRule :=
  { r with
    name := match u.name with | some n => nameStore n | none => r.name
    enabled := (u.enabled).getD r.enabled
    symbols_json := match u.symbols with | some l => normFilter l | none => r.symbols_json
    biases_json := match u.biases with | some l => normFilter l | none => r.biases_json
    phases_json := match u.phases with | some l => normFilter l | none => r.phases_json
    timeframes_json := match u.timeframes with | some l => normFilter l | none => r.timeframes_json }

/-- `update_rule` (storage.py): no collected updates return `True` without
touching the table; otherwise `UPDATE ... WHERE id = ? AND user_id = ?`
and report `rowcount > 0`. -/
def update_rule (table : List DBRule) (rule_id : Int) (user_id : String) (u : RuleUpdate) :
    List DBRule × Bool :=
  if !hasUpdates u then (table, true)
  else
    (table.map (fun r => if r.id == rule_id && r.user_id == user_id then applyUpdate u r else r),
     table.any (fun r => r.id == rule_id && r.user_id == user_id))

/-- `delete_rule` (storage.py): `DELETE ... WHERE id = ? AND user_id = ?`
and report `rowcount > 0`. -/
def delete_rule (table : List DBRule) (rule_id : Int) (user_id : String) :
    List DBRule × Bool :=
  (table.filter (fun r => !(r.id == rule_id && r.user_id == user_id)),
   table.any (fun r => r.id == rule_id && r.user_id == user_id))

/-- A row of `automation_active_pairs`. -/
structure PairRow where
  symbol : String
  direction : String
  timeframes_json : List String
  market_phase : Option String
  confidence : Option Int
  matched_rule_ids_json : List Int
  updated_at : Int
  expires_at : Int

/-- One value of the `active_pairs` dict passed to
`replace_active_pairs`. -/
structure PairItem where
  direction : String
  timeframes : List String
  market_phase : Option String
  confidence : Option Int
  matched_rule_ids : List Int

/-- `INSERT ... ON CONFLICT(symbol) DO UPDATE`: replace the row with the
same symbol in place, else append. -/
def upsertPair (t : List PairRow) (r : PairRow) : List PairRow :=
  if t.any (fun q => q.symbol == r.symbol) then
    t.map (fun q => if q.symbol == r.symbol then r else q)
  else t ++ [r]

/-- `replace_active_pairs` (storage.py): one transaction that deletes all
rows, inserts one row per input entry with a single
`expires_at = now + ttl_seconds`, then purges rows with
`expires_at <= now`. -/
def replace_active_pairs (_table : List PairRow) (active_pairs : List (String × PairItem))
    (ttl_seconds : Int) (now : Int) : List PairRow :=
  let expires_at := now + ttl_seconds
  let rows := active_pairs.map (fun p =>
    { symbol := p.1
      direction := p.2.direction
      timeframes_json := p.2.timeframes
      market_phase := p.2.market_phase
      confidence := p.2.confidence
      matched_rule_ids_json := p.2.matched_rule_ids
      updated_at := now
      expires_at := expires_at : PairRow })
  let emptied : List PairRow := []
  let inserted := rows.foldl upsertPair emptied
  inserted.filter (fun r => !(r.expires_at ≤ now))

/-- `list_active_pairs` (storage.py): rows with `expires_at >
CURRENT_TIMESTAMP`. All rows of one publish share `updated_at`, so the
`ORDER BY updated_at DESC` leaves the publish order intact; the model
keeps table order. -/
def list_active_pairs (table : List PairRow) (now : Int) : List PairRow :=
  table.filter (fun r => now < r.expires_at)

deriving instance DecidableEq for TimeframeSignal

deriving instance DecidableEq for Signal

deriving instance DecidableEq for AutomationRule

deriving instance DecidableEq for RuleMatchResult

deriving instance DecidableEq for Activation

deriving instance DecidableEq for ActivePair

deriving instance DecidableEq for DBRule

deriving instance DecidableEq for RuleUpdate

deriving instance DecidableEq for PairRow

deriving instance DecidableEq for PairItem

/-! ## Auxiliary definitions for the statements and proofs -/

/-- Association-list lookup (dict access by key). -/
def alookup {α : Type} (m : List (String × α)) (k : String) : Option α :=
  (m.find? (fun p => p.1 == k)).map (·.2)

/-- The matching `(rule, signal)` evaluations for one symbol, in evaluation
order. -/
def matchedPairs (signals : List Signal) (rules : List AutomationRule) (symbol : String) :
    List (AutomationRule × Signal) :=
  (rulePairs signals rules).filter
    (fun p => (evaluate_rule p.1 p.2).matched && p.2.symbol == symbol)

/-- The activation-map effect of one `(rule, signal)` step of
`evaluate_rules` (the second component of `stepPair`). -/
def actStep (act : List (String × Activation)) (p : AutomationRule × Signal) :
    List (String × Activation) :=
  if p.1.symbols ≠ [] ∧ p.2.symbol ∉ normFilter p.1.symbols then act
  else if (evaluate_rule p.1 p.2).matched then addMatch act p.1 p.2 (evaluate_rule p.1 p.2)
  else act

/-- The `setdefault` default entry for a first match. -/
def initActivation (p : AutomationRule × Signal) : Activation :=
  { symbol := p.2.symbol
    directions := []
    matched_rule_ids := []
    matched_rule_names := []
    market_phase := p.2.market_phase
    bias := p.2.bias
    confidence := p.2.confidence
    timeframes := p.1.timeframe_chain }

/-- Extending an activation entry with one further matching pair. -/
def extendActivation (e : Activation) (p : AutomationRule × Signal) : Activation :=
  let r := evaluate_rule p.1 p.2
  { e with
    directions := setAdd e.directions ((r.direction).getD "")
    matched_rule_ids := setAdd e.matched_rule_ids r.rule_id
    matched_rule_names := setAdd e.matched_rule_names r.rule_name }

/-- The activation entry accumulated from a list of matching pairs,
starting from an optional existing entry. -/
def accEntry : Option Activation → List (AutomationRule × Signal) → Option Activation
  | eo, [] => eo
  | none, p :: ps => accEntry (some (extendActivation (initActivation p) p)) ps
  | some e, p :: ps => accEntry (some (extendActivation e p)) ps

/-- Whether `parse_signals` keeps an item: a dict with a non-empty parsed
symbol. -/
def isKeptItem (it : JValue) : Bool :=
  match it with
  | .obj fs => decide ((parse_signal fs).symbol ≠ "")
  | _ => false

/-! ## Concrete fixtures used by witnesses and counterexamples -/

/-- A timeframe verdict with the given `signal` value and no extras. -/
def mkTS (v : String) : TimeframeSignal :=
  { confidence := none, entry := none, risk_reward := none, signal := v,
    stop_loss := none, strength := none, take_profit := none, trend := none }

/-- A bullish D1 rule accepting every symbol. -/
def ruleBull : AutomationRule :=
  { id := 1, user_id := "u", name := "R1", enabled := true,
    symbols := [], biases := ["BULLISH"], market_phases := [], timeframe_chain := ["D1"] }

/-- A bearish D1 rule accepting every symbol. -/
def ruleBear : AutomationRule :=
  { id := 2, user_id := "u", name := "R2", enabled := true,
    symbols := [], biases := ["BEARISH"], market_phases := [], timeframe_chain := ["D1"] }

/-- A bullish EURUSD signal with D1 = BUY, phase RANGE. -/
def sigBull : Signal :=
  { symbol := "EURUSD", bias := "BULLISH", market_phase := some "RANGE",
    confidence := some 1, is_stale := none, price := none,
    timeframes := [("D1", mkTS "BUY")], raw := [] }

/-- A second bullish EURUSD signal, phase EXPANSION (later in the feed). -/
def sigBull2 : Signal :=
  { sigBull with market_phase := some "EXPANSION", confidence := some 2 }

/-- A bearish EURUSD signal with D1 = SELL. -/
def sigBear : Signal :=
  { sigBull with bias := "BEARISH", timeframes := [("D1", mkTS "SELL")] }

/-- Published pair item: buy on D1. -/
def pairBuy : PairItem :=
  { direction := "buy", timeframes := ["D1"], market_phase := none,
    confidence := none, matched_rule_ids := [1] }

/-- Published pair item: sell on D1. -/
def pairSell : PairItem :=
  { direction := "sell", timeframes := ["D1"], market_phase := none,
    confidence := none, matched_rule_ids := [2] }

/-- A server that answers every page request with one signal and a
non-empty `next` URL — an unbounded pagination chain. -/
def chainResp : String → Option Int → Except String JValue := fun _ _ =>
  .ok (.obj [("data", .arr [.obj [("symbol", .str "X1")]]), ("next", .str "http://next")])

/-- Fetch configuration with `max_pages = 5`. -/
def cfg5 : FetchConfig :=
  { signals_url := some "http://u", page_size := 200, max_retries := 3,
    backoff_seconds := 1, max_pages := 5 }

/-- The signal list `fetch_all` produces against `chainResp`/`cfg5`. -/
def chainSigs : List Signal :=
  match fetch_all chainResp cfg5 with
  | .ok (s, _) => s
  | .error _ => []

/-- A transport that fails on every attempt. -/
def failResp : Nat → Except String JValue := fun _ => .error "boom"

/-- A `RuleUpdate` supplying no fields at all. -/
def emptyUpdate : RuleUpdate := ⟨none, none, none, none, none, none⟩

/-- A `RuleUpdate` supplying only a new name. -/
def nameUpdate : RuleUpdate := ⟨some "New", none, none, none, none, none⟩

/-- A dict payload whose `data` list is longer than the page size 2. -/
def overfullPayload : JValue := .obj [("data", .arr [.null, .null, .null])]

/-- A timeframes payload whose `signal` field is JSON `null`. -/
def nullSigTF : List (String × JValue) := [("signal", .null)]

/-- A stored rule row owned by user `"alice"` with id 1. -/
def dbRule1 : DBRule :=
  { id := 1, user_id := "alice", name := "Rule A", enabled := true,
    symbols_json := [], biases_json := ["BULLISH", "BEARISH"],
    phases_json := ["RANGE", "EXPANSION", "MIXED"], timeframes_json := ["D1"] }

/-- The active pair `evaluate_rules` publishes for EURUSD from
`[sigBull, sigBull2]` under `ruleBull`. -/
def apRange : ActivePair :=
  { symbol := "EURUSD", direction := "buy", matched_rule_ids := [1],
    matched_rule_names := ["R1"], market_phase := some "RANGE", bias := "BULLISH",
    confidence := some 1, timeframes := ["D1"] }


/-! ## Character and string normalisation lemmas -/

theorem char_toNat_ofNat_lt {n : Nat} (h : n < 55296) : (Char.ofNat n).toNat = n := by
  have hv : Nat.isValidChar n := Or.inl h
  rw [Char.ofNat, dif_pos hv]
  simp [Char.ofNatAux, Char.toNat, UInt32.toNat, BitVec.toNat_ofNatLt]

theorem char_eq_iff_toNat (d e : Char) : (d = e) ↔ (d.toNat = e.toNat) := by
  constructor
  · rintro rfl; rfl
  · intro he
    have h1 := Char.ofNat_toNat d
    rw [he, Char.ofNat_toNat] at h1
    exact h1.symm

theorem char_ws_toNat (d : Char) : d.isWhitespace = true ↔
    (d.toNat = 32 ∨ d.toNat = 9 ∨ d.toNat = 13 ∨ d.toNat = 10) := by
  simp only [Char.isWhitespace, Bool.or_eq_true, decide_eq_true_eq]
  rw [char_eq_iff_toNat d (Char.ofNat 32), char_eq_iff_toNat d (Char.ofNat 9),
    char_eq_iff_toNat d (Char.ofNat 13), char_eq_iff_toNat d (Char.ofNat 10)]
  have h32 : (Char.ofNat 32).toNat = 32 := char_toNat_ofNat_lt (by omega)
  have h9 : (Char.ofNat 9).toNat = 9 := char_toNat_ofNat_lt (by omega)
  have h13 : (Char.ofNat 13).toNat = 13 := char_toNat_ofNat_lt (by omega)
  have h10 : (Char.ofNat 10).toNat = 10 := char_toNat_ofNat_lt (by omega)
  have e32 : (' ' : Char) = Char.ofNat 32 := by decide
  have e9 : ('\t' : Char) = Char.ofNat 9 := by decide
  have e13 : ('\r' : Char) = Char.ofNat 13 := by decide
  have e10 : ('\n' : Char) = Char.ofNat 10 := by decide
  rw [← e32, ← e9, ← e13, ← e10] at *
  rw [h32, h9, h13, h10]
  tauto

theorem toUpper_eq (c : Char) :
    Char.toUpper c = if c.toNat ≥ 97 ∧ c.toNat ≤ 122 then Char.ofNat (c.toNat - 32) else c := rfl

theorem ws_toUpper (c : Char) : (Char.toUpper c).isWhitespace = c.isWhitespace := by
  rw [toUpper_eq]
  split
  · rename_i h
    obtain ⟨h1, h2⟩ := h
    have ht : (Char.ofNat (c.toNat - 32)).toNat = c.toNat - 32 :=
      char_toNat_ofNat_lt (by omega)
    have hb : ∀ a b : Bool, (a = b) ↔ ((a = true) ↔ (b = true)) := by decide
    rw [hb, char_ws_toNat, char_ws_toNat, ht]
    omega
  · rfl

theorem toUpper_idem (c : Char) : Char.toUpper (Char.toUpper c) = Char.toUpper c := by
  by_cases hc : c.toNat ≥ 97 ∧ c.toNat ≤ 122
  · have h1 : Char.toUpper c = Char.ofNat (c.toNat - 32) := by rw [toUpper_eq, if_pos hc]
    have ht : (Char.ofNat (c.toNat - 32)).toNat = c.toNat - 32 :=
      char_toNat_ofNat_lt (by omega)
    rw [h1, toUpper_eq, ht, if_neg (by omega)]
  · have h1 : Char.toUpper c = c := by rw [toUpper_eq, if_neg hc]
    rw [h1, h1]

theorem dropWhile_map_upper (l : List Char) :
    (l.map Char.toUpper).dropWhile Char.isWhitespace =
      (l.dropWhile Char.isWhitespace).map Char.toUpper := by
  induction l with
  | nil => rfl
  | cons a as ih =>
    simp only [List.map_cons, List.dropWhile_cons, ws_toUpper]
    split <;> simp [ih]

theorem pyStrip_data (s : String) :
    (pyStrip s).data =
      List.rdropWhile Char.isWhitespace (s.data.dropWhile Char.isWhitespace) := by
  simp [pyStrip, List.rdropWhile]

theorem dropWhile_eq_self_of_prefix {p : Char → Bool} {u v : List Char}
    (hp : u <+: v) (hv : v.dropWhile p = v) : u.dropWhile p = u := by
  cases u with
  | nil => rfl
  | cons a us =>
    obtain ⟨t, ht⟩ := hp
    rw [← ht] at hv
    rw [List.cons_append, List.dropWhile_cons] at hv
    rw [List.dropWhile_cons]
    by_cases hpa : p a
    · simp only [hpa, if_true] at hv
      have hlen := congrArg List.length hv
      have hle := (List.dropWhile_sublist (l := us ++ t) p).length_le
      simp only [List.length_cons] at hlen
      omega
    · simp [hpa]

theorem dropWhile_rdropWhile_dropWhile (l : List Char) :
    List.dropWhile Char.isWhitespace
        (List.rdropWhile Char.isWhitespace (l.dropWhile Char.isWhitespace)) =
      List.rdropWhile Char.isWhitespace (l.dropWhile Char.isWhitespace) :=
  dropWhile_eq_self_of_prefix (List.rdropWhile_prefix _ _)
    (List.dropWhile_idempotent _ _)

theorem pyStrip_idem (s : String) : pyStrip (pyStrip s) = pyStrip s := by
  apply String.ext
  rw [pyStrip_data, pyStrip_data s, dropWhile_rdropWhile_dropWhile,
    List.rdropWhile_idempotent]

theorem rdropWhile_map_upper (l : List Char) :
    List.rdropWhile Char.isWhitespace (l.map Char.toUpper) =
      (List.rdropWhile Char.isWhitespace l).map Char.toUpper := by
  rw [List.rdropWhile, List.rdropWhile, ← List.map_reverse, dropWhile_map_upper,
    List.map_reverse]

theorem pyStrip_pyUpper (s : String) : pyStrip (pyUpper s) = pyUpper (pyStrip s) := by
  apply String.ext
  show (pyStrip (pyUpper s)).data = (pyUpper (pyStrip s)).data
  rw [pyStrip_data]
  show _ = (pyStrip s).data.map Char.toUpper
  rw [pyStrip_data]
  show List.rdropWhile Char.isWhitespace ((s.data.map Char.toUpper).dropWhile Char.isWhitespace)
      = _
  rw [dropWhile_map_upper, rdropWhile_map_upper]

theorem pyUpper_idem (s : String) : pyUpper (pyUpper s) = pyUpper s := by
  apply String.ext
  show (s.data.map Char.toUpper).map Char.toUpper = s.data.map Char.toUpper
  rw [List.map_map]
  exact List.map_congr_left (fun a _ => toUpper_idem a)

theorem normUp_idem (s : String) : normUp (normUp s) = normUp s := by
  unfold normUp
  rw [pyStrip_pyUpper, pyStrip_idem, pyUpper_idem]


/-! ## C3 — replace-and-expire semantics of the active-pairs table -/

theorem foldl_upsert_of_nodup (rows : List PairRow) (t : List PairRow)
    (hdis : ∀ r ∈ rows, ∀ q ∈ t, q.symbol ≠ r.symbol)
    (hnd : (rows.map PairRow.symbol).Nodup) :
    rows.foldl upsertPair t = t ++ rows := by
  induction rows generalizing t with
  | nil => simp
  | cons r rs ih =>
    simp only [List.foldl_cons]
    have hup : upsertPair t r = t ++ [r] := by
      unfold upsertPair
      rw [if_neg]
      simp only [List.any_eq_true, beq_iff_eq, not_exists, not_and]
      exact fun q hq => hdis r (List.mem_cons_self r rs) q hq
    rw [hup, ih (t ++ [r])]
    · simp
    · intro r' hr' q hq
      rcases List.mem_append.mp hq with hq | hq
      · exact hdis r' (List.mem_cons_of_mem _ hr') q hq
      · have hqr : q = r := by simpa using hq
        subst hqr
        simp only [List.map_cons, List.nodup_cons] at hnd
        intro heq
        exact hnd.1 (heq ▸ List.mem_map_of_mem PairRow.symbol hr')
    · simp only [List.map_cons, List.nodup_cons] at hnd
      exact hnd.2

/-- C3: for any prior table contents, any input mapping with distinct
symbols and `buy`/`sell` directions, and any `ttl_seconds > 0`,
`replace_active_pairs` leaves exactly one row per input symbol — all
stamped with the single `expires_at = now + ttl_seconds` — and no row for
any other symbol; a subsequent `list_active_pairs` at the same time
returns exactly the input symbols (so a symbol published earlier but
absent from the new mapping is removed immediately). -/
theorem replace_active_pairs_replaces (table : List PairRow)
    (pairs : List (String × PairItem)) (ttl now : Int)
    (httl : 0 < ttl) (hnd : (pairs.map Prod.fst).Nodup)
    (hdir : ∀ p ∈ pairs, p.2.direction = "buy" ∨ p.2.direction = "sell") :
    replace_active_pairs table pairs ttl now =
      pairs.map (fun p =>
        { symbol := p.1
          direction := p.2.direction
          timeframes_json := p.2.timeframes
          market_phase := p.2.market_phase
          confidence := p.2.confidence
          matched_rule_ids_json := p.2.matched_rule_ids
          updated_at := now
          expires_at := now + ttl }) ∧
      (list_active_pairs (replace_active_pairs table pairs ttl now) now).map PairRow.symbol
        = pairs.map Prod.fst := by
  have hmain : replace_active_pairs table pairs ttl now =
      pairs.map (fun p =>
        { symbol := p.1
          direction := p.2.direction
          timeframes_json := p.2.timeframes
          market_phase := p.2.market_phase
          confidence := p.2.confidence
          matched_rule_ids_json := p.2.matched_rule_ids
          updated_at := now
          expires_at := now + ttl : PairRow }) := by
    unfold replace_active_pairs
    dsimp only
    rw [foldl_upsert_of_nodup _ _ (by intro r hr q hq; simp at hq) (by
      simp only [List.map_map]
      convert hnd using 2)]
    rw [List.nil_append]
    rw [List.filter_eq_self.mpr]
    intro a ha
    simp only [List.mem_map] at ha
    obtain ⟨p, hp, rfl⟩ := ha
    simp only [Bool.not_eq_eq_eq_not, Bool.not_true, decide_eq_false_iff_not, not_le]
    omega
  refine ⟨hmain, ?_⟩
  rw [hmain]
  unfold list_active_pairs
  rw [List.filter_eq_self.mpr]
  · rw [List.map_map]
    rfl
  · intro a ha
    simp only [List.mem_map] at ha
    obtain ⟨p, hp, rfl⟩ := ha
    simp only [decide_eq_true_eq]
    omega

/-- Witness for C3: publish `{EURUSD: buy}`, then `{GBPUSD: sell}` — the
later listing contains only GBPUSD. -/
theorem replace_active_pairs_replaces_witness :
    (list_active_pairs
        (replace_active_pairs (replace_active_pairs [] [("EURUSD", pairBuy)] 60 0)
          [("GBPUSD", pairSell)] 60 10) 10).map PairRow.symbol = ["GBPUSD"] := by
  have h := replace_active_pairs_replaces
    (replace_active_pairs [] [("EURUSD", pairBuy)] 60 0)
    [("GBPUSD", pairSell)] 60 10 (by decide) (by decide) (by decide)
  exact h.2

/-! ## C7 — rule mutation scoping -/

/-- C7 (amended): `update_rule` (when it carries at least one field
update) and `delete_rule` touch only rows matching both `id` and
`user_id`; with no matching row they leave the table unchanged and return
`False`; non-matching rows survive both calls unchanged (position-wise for
update, membership-wise for delete). `update_rule` with no supplied fields
returns `True` without touching the table, even when the rule does not
exist. -/
theorem rule_mutation_scoped (table : List DBRule) (rule_id : Int) (user_id : String)
    (u : RuleUpdate) :
    (hasUpdates u = true →
      (∀ r ∈ table, ¬(r.id = rule_id ∧ r.user_id = user_id)) →
        update_rule table rule_id user_id u = (table, false))
    ∧ ((∀ r ∈ table, ¬(r.id = rule_id ∧ r.user_id = user_id)) →
        delete_rule table rule_id user_id = (table, false))
    ∧ (hasUpdates u = false → update_rule table rule_id user_id u = (table, true))
    ∧ (∀ i : Nat, ∀ r : DBRule, table.get? i = some r →
        ¬(r.id = rule_id ∧ r.user_id = user_id) →
        (update_rule table rule_id user_id u).1.get? i = some r)
    ∧ (∀ r ∈ table, ¬(r.id = rule_id ∧ r.user_id = user_id) →
        r ∈ (delete_rule table rule_id user_id).1) := by
  have hpred : ∀ r : DBRule, ¬(r.id = rule_id ∧ r.user_id = user_id) →
      (r.id == rule_id && r.user_id == user_id) = false := by
    intro r hr
    apply Bool.eq_false_iff.mpr
    intro hc
    simp only [Bool.and_eq_true, beq_iff_eq] at hc
    exact hr hc
  have hanyf : (∀ r ∈ table, ¬(r.id = rule_id ∧ r.user_id = user_id)) →
      table.any (fun r => r.id == rule_id && r.user_id == user_id) = false := by
    intro hno
    simp only [List.any_eq_false]
    intro r hr
    simp only [Bool.and_eq_true, beq_iff_eq, not_and]
    intro h1 h2
    exact hno r hr ⟨h1, h2⟩
  refine ⟨?_, ?_, ?_, ?_, ?_⟩
  · intro hu hno
    unfold update_rule
    simp only [hu, Bool.not_true, Bool.false_eq_true, if_false]
    rw [hanyf hno]
    have : ∀ r ∈ table, (if r.id == rule_id && r.user_id == user_id
        then applyUpdate u r else r) = r := by
      intro r hr
      rw [if_neg]
      simp only [Bool.and_eq_true, beq_iff_eq]
      exact hno r hr
    rw [List.map_congr_left this]
    simp
  · intro hno
    unfold delete_rule
    rw [hanyf hno]
    rw [List.filter_eq_self.mpr]
    intro r hr
    rw [hpred r (hno r hr)]
    rfl
  · intro hu
    unfold update_rule
    simp [hu]
  · intro i r hget hno
    unfold update_rule
    by_cases hu : hasUpdates u
    · simp only [hu, Bool.not_true, Bool.false_eq_true, if_false]
      rw [List.get?_map, hget]
      have hite : (if r.id == rule_id && r.user_id == user_id
          then applyUpdate u r else r) = r := by
        rw [if_neg]
        simp only [Bool.and_eq_true, beq_iff_eq]
        exact hno
      exact congrArg some hite
    · simp only [Bool.not_eq_true] at hu
      simp only [hu, Bool.not_false, if_true]
      exact hget
  · intro r hr hno
    unfold delete_rule
    simp only
    apply List.mem_filter.mpr
    refine ⟨hr, ?_⟩
    rw [hpred r hno]
    rfl

/-- Counterexample for C7 as stated: `update_rule` called with no field
updates on an empty table (so no row matches `id = 999`, `user_id = "u"`)
returns `True`, not the `False` the claim requires for a nonexistent
rule. -/
theorem rule_mutation_counterexample :
    update_rule [] 999 "u" emptyUpdate = ([], true) ∧
      ¬((update_rule [] 999 "u" emptyUpdate).2 = false) := by
  constructor
  · rfl
  · decide


/-! ## C6 — retry exhaustion and cycle abort -/

theorem retryGo_exhausts (resp : Nat → Except String JValue) (base : ℚ) :
    ∀ (remaining attempt : Nat) (log : List ℚ), 1 ≤ attempt →
    (∀ i, attempt ≤ i → i < attempt + remaining → (resp i).isOk = false) →
    retryGo resp base attempt remaining log =
      (.error "Failed to fetch signals after retries", attempt + remaining - 1,
        log ++ (List.range remaining).map (fun j => base * 2 ^ (attempt - 1 + j))) := by
  intro remaining
  induction remaining with
  | zero =>
    intro attempt log h1 hfail
    simp [retryGo]
  | succ rem ih =>
    intro attempt log h1 hfail
    have hone : (resp attempt).isOk = false :=
      hfail attempt (Nat.le_refl _) (by omega)
    unfold retryGo
    cases hr : resp attempt with
    | ok v => rw [hr] at hone; simp [Except.isOk, Except.toBool] at hone
    | error e =>
      rw [ih (attempt + 1) (log ++ [base * 2 ^ (attempt - 1)]) (by omega)
        (fun i hi1 hi2 => hfail i (by omega) (by omega))]
      dsimp only
      refine congrArg₂ Prod.mk rfl ?_
      refine congrArg₂ Prod.mk (by omega) ?_
      rw [List.range_succ_eq_map]
      simp only [List.map_cons, List.map_map, List.append_assoc, List.singleton_append]
      congr 1
      norm_num
      intro a _
      left
      omega


/-- C6: when every attempt for a page fails, `_get_with_retries` performs
exactly `max_retries` attempts, sleeping `base_backoff * 2 ^ (attempt - 1)`
after each failed attempt (attempts numbered from 1), and then raises a
terminal error; and a page-request error propagates out of the `fetch_all`
loop unchanged, so a failing page yields no signal list at all — neither a
partial nor an empty-success result. -/
theorem get_with_retries_exhaustion (resp : Nat → Except String JValue)
    (max_retries : Nat) (base : ℚ)
    (hpos : 0 < max_retries)
    (hfail : ∀ i, 1 ≤ i → i ≤ max_retries → (resp i).isOk = false) :
    get_with_retries resp max_retries base =
      (.error "Failed to fetch signals after retries", max_retries,
        (List.range max_retries).map (fun j => base * 2 ^ j)) ∧
    (∀ (get : String → Option Int → Except String JValue) (page_size : Int)
        (fuel : Nat) (url : String) (page : Option Int) (acc : List Signal)
        (pages : Nat) (e : String),
      get url page = .error e →
        fetchLoop get page_size (fuel + 1) url page acc pages = .error e) := by
  constructor
  · unfold get_with_retries
    rw [retryGo_exhausts resp base max_retries 1 [] (Nat.le_refl 1)
      (fun i hi1 hi2 => hfail i hi1 (by omega))]
    simp
  · intro get page_size fuel url page acc pages e hget
    unfold fetchLoop
    rw [hget]

/-- Witness for C6: a transport failing every attempt, `max_retries = 3`,
base backoff 1 — three attempts, backoffs `[2^0, 2^1, 2^2]`, terminal
error; and `fetch_all`-loop propagation of a failing first page. -/
theorem get_with_retries_exhaustion_witness :
    get_with_retries failResp 3 1 =
      (.error "Failed to fetch signals after retries", 3,
        (List.range 3).map (fun j => (1 : ℚ) * 2 ^ j)) ∧
    fetchLoop (fun _ _ => .error "down") 200 5 "http://u" (some 1) [] 0 =
      .error "down" :=
  ⟨(get_with_retries_exhaustion failResp 3 1 (by decide) (fun i h1 h2 => rfl)).1,
    (get_with_retries_exhaustion failResp 3 1 (by decide) (fun i h1 h2 => rfl)).2
      (fun _ _ => .error "down") 200 4 "http://u" (some 1) [] 0 "down" rfl⟩

/-! ## C5 — pagination bound -/

theorem fetchLoop_ok_bound (get : String → Option Int → Except String JValue)
    (page_size : Int) :
    ∀ (fuel : Nat) (url : String) (page : Option Int) (acc : List Signal)
      (pages0 : Nat) (sigs : List Signal) (pages : Nat),
      fetchLoop get page_size fuel url page acc pages0 = .ok (sigs, pages) →
        pages0 ≤ pages ∧ pages ≤ pages0 + fuel ∧
          ∃ reqs : List (String × Option Int), reqs.length + pages0 = pages ∧
            sigs = acc ++ reqs.flatMap (fun rq =>
              match get rq.1 rq.2 with
              | .ok payload => parse_signals payload
              | .error _ => []) := by
  intro fuel
  induction fuel with
  | zero =>
    intro url page acc pages0 sigs pages h
    unfold fetchLoop at h
    obtain ⟨h1, h2⟩ : acc = sigs ∧ pages0 = pages := by
      constructor <;> [skip; skip] <;> cases h <;> rfl
    subst h1; subst h2
    exact ⟨Nat.le_refl _, by omega, [], by simp, by simp⟩
  | succ fuel ih =>
    intro url page acc pages0 sigs pages h
    unfold fetchLoop at h
    cases hget : get url page with
    | error e => rw [hget] at h; cases h
    | ok payload =>
      rw [hget] at h
      dsimp only at h
      cases hdet : detect_next page_size payload url page with
      | mk onext opage =>
        rw [hdet] at h
        cases onext with
        | none =>
          obtain ⟨h1, h2⟩ : acc ++ parse_signals payload = sigs ∧ pages0 + 1 = pages := by
            constructor <;> cases h <;> rfl
          subst h1
          refine ⟨by omega, by omega, [(url, page)], by simp; omega, ?_⟩
          simp [hget]
        | some u =>
          have hrec := ih u opage (acc ++ parse_signals payload) (pages0 + 1) sigs pages h
          obtain ⟨ha, hb, reqs, hlen, hsigs⟩ := hrec
          refine ⟨by omega, by omega, (url, page) :: reqs, by simp at hlen ⊢; omega, ?_⟩
          rw [hsigs]
          simp [hget]

/-- C5: for every upstream behaviour — including a server that always
answers with a non-empty `next` chain — a successful `fetch_all` issues at
most `max_pages` page requests (`pages_fetched ≤ max_pages`), and the
returned signals are exactly the concatenated parses of the pages it
fetched. -/
theorem fetch_all_bounded (get : String → Option Int → Except String JValue)
    (cfg : FetchConfig) (sigs : List Signal) (pages : Nat)
    (h : fetch_all get cfg = .ok (sigs, pages)) :
    pages ≤ cfg.max_pages ∧
      ∃ reqs : List (String × Option Int), reqs.length = pages ∧
        sigs = reqs.flatMap (fun rq =>
          match get rq.1 rq.2 with
          | .ok payload => parse_signals payload
          | .error _ => []) := by
  unfold fetch_all at h
  by_cases hu : (cfg.signals_url).getD "" = ""
  · rw [if_pos hu] at h
    cases h
  · rw [if_neg hu] at h
    obtain ⟨h1, h2, reqs, hlen, hsigs⟩ :=
      fetchLoop_ok_bound get cfg.page_size cfg.max_pages ((cfg.signals_url).getD "")
        (some 1) [] 0 sigs pages h
    exact ⟨by omega, reqs, by omega, by simpa using hsigs⟩

/-- Witness for C5: against the endless `next`-chain server with
`max_pages = 5`, `fetch_all` succeeds after exactly 5 page requests. -/
theorem fetch_all_bounded_witness :
    5 ≤ cfg5.max_pages ∧
      ∃ reqs : List (String × Option Int), reqs.length = 5 ∧
        chainSigs = reqs.flatMap (fun rq =>
          match chainResp rq.1 rq.2 with
          | .ok payload => parse_signals payload
          | .error _ => []) :=
  fetch_all_bounded chainResp cfg5 chainSigs 5 (by decide)


/-! ## C9 — fallback pagination heuristic -/

/-- C9 (amended): when a dict response has no non-empty string `next` and
the `page`/`total_pages` advance does not apply, `_detect_next` requests a
further page if and only if the extracted item list's length is at least
(`>=`, not `==`) the configured page size; in that case the next request
is `current_page + 1` (page 2 when no current page number is known). -/
theorem detect_next_fallback (page_size : Int) (fs : List (String × JValue))
    (url : String) (cp : Option Int)
    (hnext : nextUrlOf fs = none) (hpt : pageTotalAdvance fs = none) :
    ((detect_next page_size (.obj fs) url cp).1 ≠ none ↔
      ∃ xs, firstCandidate fs = some (.arr xs) ∧ page_size ≤ (xs.length : Int)) ∧
    (∀ xs, firstCandidate fs = some (.arr xs) → page_size ≤ (xs.length : Int) →
      detect_next page_size (.obj fs) url cp =
        (some url, some (match cp with | none => 2 | some c => c + 1))) := by
  have hd : detect_next page_size (.obj fs) url cp =
      (match firstCandidate fs with
       | some (.arr xs) =>
          if page_size ≤ (xs.length : Int) then
            (some url, some (match cp with | none => 2 | some c => c + 1))
          else (none, none)
       | _ => (none, none)) := by
    unfold detect_next
    dsimp only
    rw [hnext, hpt]
  rw [hd]
  constructor
  · cases hfc : firstCandidate fs with
    | none => simp
    | some v =>
      cases v with
      | arr xs =>
        by_cases hlen : page_size ≤ (xs.length : Int)
        · simp only [if_pos hlen]
          constructor
          · intro _
            exact ⟨xs, rfl, hlen⟩
          · intro _
            simp
        · simp only [if_neg hlen]
          constructor
          · intro hc
            exact absurd rfl hc
          · rintro ⟨ys, hys, hlen2⟩
            cases hys
            exact absurd hlen2 hlen
      | null => simp
      | bool b => simp
      | num n => simp
      | str s => simp
      | obj gs => simp
  · intro xs hxs hlen
    rw [hxs]
    simp [hlen]

/-- Counterexample for C9 as stated: page size 2, a `data` list of length
3 (strictly longer than the page size, so "any other length" should stop
pagination per the claim) — yet `_detect_next` requests page 2. -/
theorem detect_next_counterexample :
    detect_next 2 overfullPayload "u" (some 1) = (some "u", some 2) ∧
      ¬((3 : Int) = 2) := by
  constructor
  · decide
  · decide


/-! ## C4 — total, shape-tolerant parsing -/

theorem keepItem_none_of_not_kept (it : JValue) (h : isKeptItem it = false) :
    keepItem it = none := by
  cases it with
  | obj fs =>
    unfold isKeptItem at h
    unfold keepItem
    simp only [decide_eq_false_iff_not, Decidable.not_not] at h
    simp [h]
  | null => rfl
  | bool b => rfl
  | num n => rfl
  | str s => rfl
  | arr xs => rfl

/-- C4: `parse_signals` is total by construction (it is a Lean function on
all of `JValue`, the model of every JSON-deserializable payload); on dict
payloads the item list comes from the first present key among `data`,
`results`, `items`, `symbols` in that order; a payload from which no list
is extracted yields `[]`; non-dict items and items without a non-empty
parsed symbol are skipped (removing them first changes nothing); and every
returned signal carries a non-empty symbol. -/
theorem parse_signals_total_shape :
    (∀ fs v, jlookup fs "data" = some v →
      parse_signals (.obj fs) =
        (match v with | .arr xs => xs.filterMap keepItem | _ => [])) ∧
    (∀ fs v, jlookup fs "data" = none → jlookup fs "results" = some v →
      parse_signals (.obj fs) =
        (match v with | .arr xs => xs.filterMap keepItem | _ => [])) ∧
    (∀ fs v, jlookup fs "data" = none → jlookup fs "results" = none →
      jlookup fs "items" = some v →
      parse_signals (.obj fs) =
        (match v with | .arr xs => xs.filterMap keepItem | _ => [])) ∧
    (∀ fs v, jlookup fs "data" = none → jlookup fs "results" = none →
      jlookup fs "items" = none → jlookup fs "symbols" = some v →
      parse_signals (.obj fs) =
        (match v with | .arr xs => xs.filterMap keepItem | _ => [])) ∧
    (∀ payload : JValue, (∀ xs, extractItems payload ≠ .arr xs) →
      parse_signals payload = []) ∧
    (∀ xs : List JValue,
      parse_signals (.arr xs) = parse_signals (.arr (xs.filter isKeptItem))) ∧
    (∀ (payload : JValue) (s : Signal), s ∈ parse_signals payload → s.symbol ≠ "") := by
  have hshape : ∀ payload : JValue, parse_signals payload =
      (match extractItems payload with
       | .arr items => items.filterMap keepItem
       | _ => []) := fun _ => rfl
  have hobj : ∀ fs, extractItems (.obj fs) = (firstCandidate fs).getD (.obj fs) :=
    fun _ => rfl
  refine ⟨?_, ?_, ?_, ?_, ?_, ?_, ?_⟩
  · intro fs v hv
    rw [hshape, hobj]
    unfold firstCandidate
    rw [hv]
    cases v <;> rfl
  · intro fs v h1 hv
    rw [hshape, hobj]
    unfold firstCandidate
    rw [h1, hv]
    cases v <;> rfl
  · intro fs v h1 h2 hv
    rw [hshape, hobj]
    unfold firstCandidate
    rw [h1, h2, hv]
    cases v <;> rfl
  · intro fs v h1 h2 h3 hv
    rw [hshape, hobj]
    unfold firstCandidate
    rw [h1, h2, h3, hv]
    cases v <;> rfl
  · intro payload hne
    rw [hshape]
    cases hx : extractItems payload with
    | arr xs => exact absurd hx (hne xs)
    | null => rfl
    | bool b => rfl
    | num n => rfl
    | str s => rfl
    | obj fs => rfl
  · intro xs
    rw [hshape, hshape]
    show xs.filterMap keepItem = (xs.filter isKeptItem).filterMap keepItem
    induction xs with
    | nil => rfl
    | cons it rest ih =>
      by_cases hk : isKeptItem it = true
      · rw [List.filter_cons_of_pos hk]
        simp only [List.filterMap_cons, ih]
      · have hk2 : isKeptItem it = false := by
          cases hkk : isKeptItem it
          · rfl
          · exact absurd hkk hk
        rw [List.filter_cons_of_neg (by rw [hk2]; exact Bool.false_ne_true)]
        rw [List.filterMap_cons, keepItem_none_of_not_kept it hk2, ih]
  · intro payload s hs
    rw [hshape] at hs
    rcases hx : extractItems payload with _ | b | n | st | xs | fs <;> rw [hx] at hs
    · cases hs
    · cases hs
    · cases hs
    · cases hs
    · obtain ⟨it, hit, hk⟩ := List.mem_filterMap.mp hs
      cases it with
      | obj gs =>
        unfold keepItem at hk
        dsimp only at hk
        split at hk
        · rename_i hne
          cases hk
          exact hne
        · cases hk
      | null => cases hk
      | bool b => cases hk
      | num n => cases hk
      | str s2 => cases hk
      | arr ys => cases hk
    · cases hs

/-- Witness for C4: a dict payload is read through its `data` key (the
extracted list then goes item by item through `keepItem`), and a `null`
payload parses to the empty list. -/
theorem parse_signals_total_shape_witness :
    parse_signals (.obj [("data", .arr [.obj [("symbol", .str "eurusd")], .num 3])]) =
      ([.obj [("symbol", .str "eurusd")], .num 3] : List JValue).filterMap keepItem ∧
    parse_signals .null = [] :=
  ⟨parse_signals_total_shape.1 [("data", .arr [.obj [("symbol", .str "eurusd")], .num 3])]
      (.arr [.obj [("symbol", .str "eurusd")], .num 3]) (by decide),
    parse_signals_total_shape.2.2.2.2.1 .null (fun xs h => JValue.noConfusion h)⟩


/-! ## Rule-engine characterisation lemmas -/

theorem alignChain_matched (rule : AutomationRule) (sig : Signal)
    (direction expected : String) (hexp : expected = "BUY" ∨ expected = "SELL") :
    ∀ tfs : List String,
      ((alignChain rule sig direction expected tfs).matched = true ↔
        ∀ tf ∈ tfs,
          (tfGet sig.timeframes tf).map (fun ts => normUp ts.signal) = some expected) := by
  intro tfs
  induction tfs with
  | nil => simp [alignChain]
  | cons tf rest ih =>
    unfold alignChain
    cases hget : tfGet sig.timeframes tf with
    | none =>
      simp only [noTrade]
      constructor
      · intro h; cases h
      · intro h
        have := h tf (List.mem_cons_self tf rest)
        rw [hget] at this
        cases this
    | some ts =>
      dsimp only
      by_cases hn : normUp ts.signal = "NEUTRAL" ∨ normUp ts.signal = ""
      · rw [if_pos hn]
        simp only [noTrade]
        constructor
        · intro h; cases h
        · intro h
          have := h tf (List.mem_cons_self tf rest)
          rw [hget] at this
          simp only [Option.map, Option.some.injEq] at this
          rcases hn with hn | hn <;> rcases hexp with he | he <;>
            rw [hn, he] at this <;> exact absurd this (by decide)
      · rw [if_neg hn]
        by_cases hv : normUp ts.signal ≠ expected
        · rw [if_pos hv]
          simp only [noTrade]
          constructor
          · intro h; cases h
          · intro h
            have := h tf (List.mem_cons_self tf rest)
            rw [hget] at this
            simp only [Option.map, Option.some.injEq] at this
            exact absurd this hv
        · rw [if_neg hv]
          simp only [Decidable.not_not] at hv
          rw [ih]
          constructor
          · intro h tf2 htf2
            rcases List.mem_cons.mp htf2 with rfl | htf2
            · simp only [hget, Option.map, hv]
            · exact h tf2 htf2
          · intro h tf2 htf2
            exact h tf2 (List.mem_cons_of_mem _ htf2)

theorem alignChain_direction (rule : AutomationRule) (sig : Signal)
    (direction expected : String) :
    ∀ tfs : List String,
      (alignChain rule sig direction expected tfs).direction =
        (if (alignChain rule sig direction expected tfs).matched then some direction
         else none) := by
  intro tfs
  induction tfs with
  | nil => simp [alignChain]
  | cons tf rest ih =>
    unfold alignChain
    cases hget : tfGet sig.timeframes tf with
    | none => simp [noTrade]
    | some ts =>
      dsimp only
      by_cases hn : normUp ts.signal = "NEUTRAL" ∨ normUp ts.signal = ""
      · rw [if_pos hn]; simp [noTrade]
      · rw [if_neg hn]
        by_cases hv : normUp ts.signal ≠ expected
        · rw [if_pos hv]; simp [noTrade]
        · rw [if_neg hv]; exact ih

theorem direction_for_bias_normUp (s : String) :
    direction_for_bias (normUp s) =
      (if normUp s = "BULLISH" then some "buy"
       else if normUp s = "BEARISH" then some "sell" else none) := by
  unfold direction_for_bias
  rw [normUp_idem]

/-- The full matched-iff characterisation of `evaluate_rule` (shared by
several claims). -/
theorem evaluate_rule_matched_char (rule : AutomationRule) (sig : Signal) :
    (evaluate_rule rule sig).matched = true ↔
      (rule.enabled = true ∧ sig.is_stale ≠ some true ∧
        (rule.symbols = [] ∨ sig.symbol ∈ normFilter rule.symbols) ∧
        (normUp sig.bias = "BULLISH" ∨ normUp sig.bias = "BEARISH") ∧
        (rule.biases = [] ∨ normUp sig.bias ∈ normFilter rule.biases) ∧
        (rule.market_phases = [] ∨
          normUp ((sig.market_phase).getD "") ∈ normFilter rule.market_phases) ∧
        normFilter rule.timeframe_chain ≠ [] ∧
        (∀ tf ∈ normFilter rule.timeframe_chain,
          (tfGet sig.timeframes tf).map (fun ts => normUp ts.signal) =
            some (if normUp sig.bias = "BULLISH" then "BUY" else "SELL"))) := by
  unfold evaluate_rule
  by_cases h1 : rule.enabled = true
  swap
  · rw [if_pos (by simp [Bool.not_eq_true] at h1; rw [h1]; rfl)]
    simp only [noTrade]
    exact iff_of_false (by simp) (fun hc => absurd hc.1 h1)
  rw [if_neg (by rw [h1]; simp)]
  by_cases h2 : sig.is_stale = some true
  · rw [if_pos h2]
    simp only [noTrade]
    exact iff_of_false (by simp) (fun hc => absurd h2 hc.2.1)
  rw [if_neg h2]
  by_cases h3 : rule.symbols ≠ [] ∧ sig.symbol ∉ normFilter rule.symbols
  · rw [if_pos h3]
    simp only [noTrade]
    refine iff_of_false (by simp) (fun hc => ?_)
    rcases hc.2.2.1 with he | hm
    · exact h3.1 he
    · exact h3.2 hm
  rw [if_neg h3]
  dsimp only
  by_cases h4 : normUp sig.bias = "NEUTRAL" ∨ normUp sig.bias = "PENDING" ∨
      normUp sig.bias = ""
  · rw [if_pos h4]
    simp only [noTrade]
    refine iff_of_false (by simp) (fun hc => ?_)
    rcases hc.2.2.2.1 with hb | hb <;> rcases h4 with h4 | h4 | h4 <;>
      rw [hb] at h4 <;> exact absurd h4 (by decide)
  rw [if_neg h4]
  by_cases h5 : rule.biases ≠ [] ∧ normUp sig.bias ∉ normFilter rule.biases
  · rw [if_pos h5]
    simp only [noTrade]
    refine iff_of_false (by simp) (fun hc => ?_)
    rcases hc.2.2.2.2.1 with he | hm
    · exact h5.1 he
    · exact h5.2 hm
  rw [if_neg h5]
  rw [direction_for_bias_normUp]
  by_cases h6 : normUp sig.bias = "BULLISH"
  case pos =>
    rw [if_pos h6]
    dsimp only
    by_cases h7 : rule.market_phases ≠ [] ∧
        normUp ((sig.market_phase).getD "") ∉ normFilter rule.market_phases
    · rw [if_pos h7]
      simp only [noTrade]
      refine iff_of_false (by simp) (fun hc => ?_)
      rcases hc.2.2.2.2.2.1 with he | hm
      · exact h7.1 he
      · exact h7.2 hm
    rw [if_neg h7]
    by_cases h8 : normFilter rule.timeframe_chain = []
    · rw [if_pos h8]
      simp only [noTrade]
      exact iff_of_false (by simp) (fun hc => absurd h8 hc.2.2.2.2.2.2.1)
    rw [if_neg h8]
    rw [alignChain_matched rule sig "buy" (expected_tf_signal "buy") (by left; rfl)]
    constructor
    · intro h
      refine ⟨h1, h2, ?_, Or.inl h6, ?_, ?_, h8, ?_⟩
      · by_cases hs : rule.symbols = []
        · exact Or.inl hs
        · right
          by_contra hm
          exact h3 ⟨hs, hm⟩
      · by_cases hb : rule.biases = []
        · exact Or.inl hb
        · right
          by_contra hm
          exact h5 ⟨hb, hm⟩
      · by_cases hp : rule.market_phases = []
        · exact Or.inl hp
        · right
          by_contra hm
          exact h7 ⟨hp, hm⟩
      · intro tf htf
        rw [if_pos h6]
        exact h tf htf
    · intro hc
      intro tf htf
      have := hc.2.2.2.2.2.2.2 tf htf
      rw [if_pos h6] at this
      exact this
  case neg =>
    rw [if_neg h6]
    by_cases h6b : normUp sig.bias = "BEARISH"
    swap
    · rw [if_neg h6b]
      simp only [noTrade]
      refine iff_of_false (by simp) (fun hc => ?_)
      rcases hc.2.2.2.1 with hb | hb
      · exact absurd hb h6
      · exact absurd hb h6b
    rw [if_pos h6b]
    dsimp only
    by_cases h7 : rule.market_phases ≠ [] ∧
        normUp ((sig.market_phase).getD "") ∉ normFilter rule.market_phases
    · rw [if_pos h7]
      simp only [noTrade]
      refine iff_of_false (by simp) (fun hc => ?_)
      rcases hc.2.2.2.2.2.1 with he | hm
      · exact h7.1 he
      · exact h7.2 hm
    rw [if_neg h7]
    by_cases h8 : normFilter rule.timeframe_chain = []
    · rw [if_pos h8]
      simp only [noTrade]
      exact iff_of_false (by simp) (fun hc => absurd h8 hc.2.2.2.2.2.2.1)
    rw [if_neg h8]
    rw [alignChain_matched rule sig "sell" (expected_tf_signal "sell") (by right; rfl)]
    constructor
    · intro h
      refine ⟨h1, h2, ?_, Or.inr h6b, ?_, ?_, h8, ?_⟩
      · by_cases hs : rule.symbols = []
        · exact Or.inl hs
        · right
          by_contra hm
          exact h3 ⟨hs, hm⟩
      · by_cases hb : rule.biases = []
        · exact Or.inl hb
        · right
          by_contra hm
          exact h5 ⟨hb, hm⟩
      · by_cases hp : rule.market_phases = []
        · exact Or.inl hp
        · right
          by_contra hm
          exact h7 ⟨hp, hm⟩
      · intro tf htf
        rw [if_neg h6]
        exact h tf htf
    · intro hc
      intro tf htf
      have := hc.2.2.2.2.2.2.2 tf htf
      rw [if_neg h6] at this
      exact this

/-- `evaluate_rule` yields `direction = buy/sell` per the bias exactly on
matches, and `None` on every non-matching branch. -/
theorem evaluate_rule_direction_char (rule : AutomationRule) (sig : Signal) :
    (evaluate_rule rule sig).direction =
      (if (evaluate_rule rule sig).matched = true then
        some (if normUp sig.bias = "BULLISH" then "buy" else "sell")
       else none) := by
  unfold evaluate_rule
  by_cases h1 : rule.enabled = true
  swap
  · rw [if_pos (by simp [Bool.not_eq_true] at h1; rw [h1]; rfl)]
    simp [noTrade]
  rw [if_neg (by rw [h1]; simp)]
  by_cases h2 : sig.is_stale = some true
  · rw [if_pos h2]
    simp [noTrade]
  rw [if_neg h2]
  by_cases h3 : rule.symbols ≠ [] ∧ sig.symbol ∉ normFilter rule.symbols
  · rw [if_pos h3]
    simp [noTrade]
  rw [if_neg h3]
  dsimp only
  by_cases h4 : normUp sig.bias = "NEUTRAL" ∨ normUp sig.bias = "PENDING" ∨
      normUp sig.bias = ""
  · rw [if_pos h4]
    simp [noTrade]
  rw [if_neg h4]
  by_cases h5 : rule.biases ≠ [] ∧ normUp sig.bias ∉ normFilter rule.biases
  · rw [if_pos h5]
    simp [noTrade]
  rw [if_neg h5]
  rw [direction_for_bias_normUp]
  by_cases h6 : normUp sig.bias = "BULLISH"
  case pos =>
    rw [if_pos h6]
    dsimp only
    by_cases h7 : rule.market_phases ≠ [] ∧
        normUp ((sig.market_phase).getD "") ∉ normFilter rule.market_phases
    · rw [if_pos h7]
      simp [noTrade]
    rw [if_neg h7]
    by_cases h8 : normFilter rule.timeframe_chain = []
    · rw [if_pos h8]
      simp [noTrade]
    rw [if_neg h8]
    rw [alignChain_direction, if_pos h6]
  case neg =>
    rw [if_neg h6]
    by_cases h6b : normUp sig.bias = "BEARISH"
    swap
    · rw [if_neg h6b]
      simp [noTrade]
    rw [if_pos h6b]
    dsimp only
    by_cases h7 : rule.market_phases ≠ [] ∧
        normUp ((sig.market_phase).getD "") ∉ normFilter rule.market_phases
    · rw [if_pos h7]
      simp [noTrade]
    rw [if_neg h7]
    by_cases h8 : normFilter rule.timeframe_chain = []
    · rw [if_pos h8]
      simp [noTrade]
    rw [if_neg h8]
    rw [alignChain_direction, if_neg h6]

/-- Pairs skipped by the cheap symbol prefilter of `evaluate_rules` would
not have matched anyway. -/
theorem prefilter_skip_not_matched (rule : AutomationRule) (sig : Signal)
    (h : rule.symbols ≠ [] ∧ sig.symbol ∉ normFilter rule.symbols) :
    (evaluate_rule rule sig).matched = false := by
  cases hm : (evaluate_rule rule sig).matched
  · rfl
  · have hc := (evaluate_rule_matched_char rule sig).mp hm
    rcases hc.2.2.1 with he | hmem
    · exact absurd he h.1
    · exact absurd hmem h.2


/-! ## C1 — evaluate_rule matching semantics -/

/-- C1: `evaluate_rule(rule, signal)` matches exactly when the rule is
enabled, the signal is not stale, the symbol passes the (trim/upper
normalised) symbol filter, the normalised bias is BULLISH or BEARISH and
passes the bias filter, the market phase passes the phase filter, the
timeframe chain has at least one non-empty entry, and every chain
timeframe is present in the signal with value BUY (bullish) / SELL
(bearish) — full-chain alignment. On a match the direction is `buy`/`sell`
per the bias; on every non-matching branch `matched = false` and
`direction = None`. -/
theorem evaluate_rule_full_alignment (rule : AutomationRule) (sig : Signal) :
    ((evaluate_rule rule sig).matched = true ↔
      (rule.enabled = true ∧ sig.is_stale ≠ some true ∧
        (rule.symbols = [] ∨ sig.symbol ∈ normFilter rule.symbols) ∧
        (normUp sig.bias = "BULLISH" ∨ normUp sig.bias = "BEARISH") ∧
        (rule.biases = [] ∨ normUp sig.bias ∈ normFilter rule.biases) ∧
        (rule.market_phases = [] ∨
          normUp ((sig.market_phase).getD "") ∈ normFilter rule.market_phases) ∧
        normFilter rule.timeframe_chain ≠ [] ∧
        (∀ tf ∈ normFilter rule.timeframe_chain,
          (tfGet sig.timeframes tf).map (fun ts => normUp ts.signal) =
            some (if normUp sig.bias = "BULLISH" then "BUY" else "SELL")))) ∧
    ((evaluate_rule rule sig).matched = true →
      (evaluate_rule rule sig).direction =
        some (if normUp sig.bias = "BULLISH" then "buy" else "sell")) ∧
    ((evaluate_rule rule sig).matched = false →
      (evaluate_rule rule sig).direction = none) := by
  refine ⟨evaluate_rule_matched_char rule sig, ?_, ?_⟩
  · intro hm
    rw [evaluate_rule_direction_char, if_pos hm]
  · intro hm
    rw [evaluate_rule_direction_char, hm]
    simp

/-- Witness for C1: the spec's single-timeframe bullish scenario matches
with direction `buy`; its stale variant does not match. -/
theorem evaluate_rule_full_alignment_witness :
    (evaluate_rule ruleBull sigBull).matched = true ∧
      (evaluate_rule ruleBull sigBull).direction = some "buy" ∧
      (evaluate_rule ruleBull { sigBull with is_stale := some true }).direction = none := by
  have h1 := (evaluate_rule_full_alignment ruleBull sigBull).1.mpr (by decide)
  refine ⟨h1, ?_, ?_⟩
  · have h2 := (evaluate_rule_full_alignment ruleBull sigBull).2.1 h1
    rw [h2]
    decide
  · exact (evaluate_rule_full_alignment ruleBull
      { sigBull with is_stale := some true }).2.2 (by decide)

/-! ## C10 — NEUTRAL degradation of missing timeframe signals -/

/-- C10: a timeframe payload whose `signal` field is missing, `null`, or
empty after trimming parses to `TimeframeSignal.signal = "NEUTRAL"`
(`parseTFPayload` is exactly the constructor `parse_signal` uses for each
timeframe entry); a chain whose next timeframe resolves to `NEUTRAL`/empty
fails with the no-alignment reason; and `evaluate_rule` can never match
when any configured chain timeframe maps to such a value. -/
theorem neutral_timeframe_never_matches :
    (∀ pl : List (String × JValue),
      (jget pl "signal" = none ∨
        (∃ s, jget pl "signal" = some (.str s) ∧ pyStrip s = "")) →
      (parseTFPayload pl).signal = "NEUTRAL") ∧
    (∀ (rule : AutomationRule) (sig : Signal) (direction expected tf : String)
        (rest : List String) (ts : TimeframeSignal),
      tfGet sig.timeframes tf = some ts →
      (normUp ts.signal = "NEUTRAL" ∨ normUp ts.signal = "") →
      (alignChain rule sig direction expected (tf :: rest)).matched = false ∧
        (alignChain rule sig direction expected (tf :: rest)).reasons =
          ["Timeframe " ++ tf ++ " is NEUTRAL (no alignment)"]) ∧
    (∀ (rule : AutomationRule) (sig : Signal) (tf : String) (ts : TimeframeSignal),
      tf ∈ normFilter rule.timeframe_chain →
      tfGet sig.timeframes tf = some ts →
      (normUp ts.signal = "NEUTRAL" ∨ normUp ts.signal = "") →
      (evaluate_rule rule sig).matched = false) := by
  refine ⟨?_, ?_, ?_⟩
  · intro pl hsig
    unfold parseTFPayload
    rcases hsig with h | ⟨s, hs, hstrip⟩
    · rw [h]
      rfl
    · rw [hs]
      unfold to_str_upper
      dsimp only
      have hns : normUp (pyStr (.str s)) = "" := by
        show normUp s = ""
        unfold normUp
        rw [hstrip]
        rfl
      rw [hns]
      rfl
  · intro rule sig direction expected tf rest ts hget hn
    unfold alignChain
    rw [hget]
    dsimp only
    rw [if_pos hn]
    exact ⟨rfl, rfl⟩
  · intro rule sig tf ts htf hget hn
    cases hm : (evaluate_rule rule sig).matched
    · rfl
    · have hc := (evaluate_rule_matched_char rule sig).mp hm
      have halign := hc.2.2.2.2.2.2.2 tf htf
      rw [hget] at halign
      simp only [Option.map, Option.some.injEq] at halign
      rcases hn with hn | hn <;> rw [hn] at halign <;>
        by_cases hb : normUp sig.bias = "BULLISH" <;>
          simp only [if_pos, if_neg, hb, if_true, if_false] at halign <;>
            revert halign <;> decide

/-- Witness for C10: a `null` `signal` field parses to NEUTRAL, and the
spec's chain-break scenario (H4 NEUTRAL) fails with the no-alignment
reason and does not match. -/
theorem neutral_timeframe_never_matches_witness :
    (parseTFPayload nullSigTF).signal = "NEUTRAL" ∧
    (evaluate_rule { ruleBull with timeframe_chain := ["D1", "H4"] }
      { sigBull with timeframes := sigBull.timeframes ++ [("H4", mkTS "NEUTRAL")] }).matched
        = false := by
  constructor
  · exact neutral_timeframe_never_matches.1 nullSigTF (Or.inl (by decide))
  · exact neutral_timeframe_never_matches.2.2
      { ruleBull with timeframe_chain := ["D1", "H4"] }
      { sigBull with timeframes := sigBull.timeframes ++ [("H4", mkTS "NEUTRAL")] }
      "H4" (mkTS "NEUTRAL") (by decide) (by decide) (Or.inl (by decide))


/-! ## Aggregation invariants of evaluate_rules -/

theorem stepPair_snd (st : List RuleMatchResult × List (String × Activation))
    (p : AutomationRule × Signal) : (stepPair st p).2 = actStep st.2 p := by
  cases p with
  | mk rule sig =>
    unfold stepPair actStep
    dsimp only
    by_cases h1 : rule.symbols ≠ [] ∧ sig.symbol ∉ normFilter rule.symbols
    · rw [if_pos h1, if_pos h1]
    · rw [if_neg h1, if_neg h1]
      by_cases h2 : (evaluate_rule rule sig).matched
      · rw [if_pos h2, if_pos h2]
      · rw [if_neg h2, if_neg h2]

theorem foldl_stepPair_snd (L : List (AutomationRule × Signal)) :
    ∀ st : List RuleMatchResult × List (String × Activation),
      (L.foldl stepPair st).2 = L.foldl actStep st.2 := by
  induction L with
  | nil => intro st; rfl
  | cons p L ih =>
    intro st
    rw [List.foldl_cons, List.foldl_cons, ih, stepPair_snd]

theorem alookup_cons {α : Type} (k : String) (v : α) (rest : List (String × α)) (s : String) :
    alookup ((k, v) :: rest) s = if k == s then some v else alookup rest s := by
  unfold alookup
  by_cases h : (k == s) = true
  · rw [if_pos h, @List.find?_cons_of_pos _ (fun p => p.1 == s) (k, v) rest h]
    rfl
  · rw [if_neg h, @List.find?_cons_of_neg _ (fun p => p.1 == s) (k, v) rest h]

theorem alookup_eq_none_of_not_mem {α : Type} (xs : List (String × α)) (s : String)
    (h : s ∉ xs.map Prod.fst) : alookup xs s = none := by
  induction xs with
  | nil => rfl
  | cons q rest ih =>
    cases q with
    | mk k v =>
      simp only [List.map_cons, List.mem_cons, not_or] at h
      rw [alookup_cons, if_neg]
      · exact ih h.2
      · simp only [beq_iff_eq]
        exact fun hc => h.1 hc.symm

theorem alookup_replace_ne {α : Type} (act : List (String × α)) (sym : String) (e : α)
    (s : String) (hne : s ≠ sym) :
    alookup (act.map (fun q => if q.1 == sym then (sym, e) else q)) s = alookup act s := by
  induction act with
  | nil => rfl
  | cons q rest ih =>
    cases q with
    | mk k v =>
      simp only [List.map_cons]
      by_cases hq : (k == sym) = true
      · rw [if_pos (by simpa using hq)]
        have hk : k = sym := by simpa using hq
        rw [alookup_cons, alookup_cons, if_neg (by simp [Ne.symm hne]),
          if_neg (by simp [hk]; exact Ne.symm hne)]
        exact ih
      · rw [if_neg (by simpa using hq)]
        rw [alookup_cons, alookup_cons]
        by_cases hks : (k == s) = true
        · rw [if_pos hks, if_pos hks]
        · rw [if_neg hks, if_neg hks]
          exact ih

theorem alookup_replace_eq {α : Type} (act : List (String × α)) (sym : String) (e : α)
    (hpres : act.any (fun q => q.1 == sym) = true) :
    alookup (act.map (fun q => if q.1 == sym then (sym, e) else q)) sym = some e := by
  induction act with
  | nil => cases hpres
  | cons q rest ih =>
    cases q with
    | mk k v =>
      simp only [List.map_cons]
      by_cases hq : (k == sym) = true
      · rw [if_pos (by simpa using hq), alookup_cons, if_pos (by simp)]
      · rw [if_neg (by simpa using hq), alookup_cons, if_neg (by simpa using hq)]
        apply ih
        rcases List.any_eq_true.mp hpres with ⟨x, hx, hxs⟩
        rcases List.mem_cons.mp hx with rfl | hx
        · exact absurd hxs (by simpa using hq)
        · exact List.any_eq_true.mpr ⟨x, hx, hxs⟩

theorem alookup_append {α : Type} (xs ys : List (String × α)) (s : String) :
    alookup (xs ++ ys) s = ((alookup xs s).orElse (fun _ => alookup ys s)) := by
  unfold alookup
  rw [List.find?_append]
  cases List.find? (fun p => p.1 == s) xs <;> rfl

theorem any_eq_false_alookup {α : Type} (act : List (String × α)) (sym : String)
    (h : act.any (fun q => q.1 == sym) = false) : alookup act sym = none := by
  apply alookup_eq_none_of_not_mem
  intro hmem
  rcases List.mem_map.mp hmem with ⟨q, hq, hqs⟩
  have := List.any_eq_false.mp h q hq
  simp [hqs] at this

theorem mem_setAdd {α : Type} [DecidableEq α] (xs : List α) (x a : α) :
    a ∈ setAdd xs x ↔ a ∈ xs ∨ a = x := by
  unfold setAdd
  by_cases h : x ∈ xs
  · rw [if_pos h]
    constructor
    · exact Or.inl
    · rintro (ha | rfl)
      · exact ha
      · exact h
  · rw [if_neg h]
    simp

theorem nodup_setAdd {α : Type} [DecidableEq α] (xs : List α) (x : α)
    (h : xs.Nodup) : (setAdd xs x).Nodup := by
  unfold setAdd
  by_cases hx : x ∈ xs
  · rw [if_pos hx]
    exact h
  · rw [if_neg hx]
    simp [List.nodup_append, h, hx]

/-- The activation-map effect of `addMatch` for the result of
`evaluate_rule`, seen through `alookup`. -/
theorem alookup_addMatch (act : List (String × Activation)) (p : AutomationRule × Signal)
    (s : String) :
    alookup (addMatch act p.1 p.2 (evaluate_rule p.1 p.2)) s =
      (if s = p.2.symbol then
        some (extendActivation ((alookup act p.2.symbol).getD (initActivation p)) p)
       else alookup act s) := by
  cases p with
  | mk rule sig =>
    unfold addMatch
    dsimp only
    have hbase : (match (act.find? (fun q => q.1 == sig.symbol)).map (·.2) with
        | some e => e
        | none =>
          { symbol := sig.symbol
            directions := []
            matched_rule_ids := []
            matched_rule_names := []
            market_phase := sig.market_phase
            bias := sig.bias
            confidence := sig.confidence
            timeframes := rule.timeframe_chain : Activation }) =
        ((alookup act sig.symbol).getD (initActivation (rule, sig))) := by
      unfold alookup initActivation
      cases (act.find? (fun q => q.1 == sig.symbol)).map (·.2) <;> rfl
    rw [hbase]
    by_cases hpres : act.any (fun q => q.1 == sig.symbol) = true
    · rw [if_pos hpres]
      by_cases hs : s = sig.symbol
      · rw [if_pos hs, hs, alookup_replace_eq act sig.symbol _ hpres]
        rfl
      · rw [if_neg hs, alookup_replace_ne act sig.symbol _ s hs]
    · rw [if_neg hpres]
      have hpf : act.any (fun q => q.1 == sig.symbol) = false := by
        cases h : act.any (fun q => q.1 == sig.symbol)
        · rfl
        · exact absurd h hpres
      by_cases hs : s = sig.symbol
      · rw [if_pos hs, hs, alookup_append, any_eq_false_alookup act sig.symbol hpf]
        rw [alookup_cons, if_pos (by simp)]
        rfl
      · have hknes : ¬((sig.symbol == s) = true) := by
          simp only [beq_iff_eq]
          intro hc
          exact hs hc.symm
        rw [if_neg hs, alookup_append, alookup_cons, if_neg hknes]
        cases alookup act s <;> rfl

/-- The fold of `actStep` accumulates, per symbol, exactly the matching
pairs in order. -/
theorem alookup_foldl_actStep (L : List (AutomationRule × Signal)) :
    ∀ (act : List (String × Activation)) (s : String),
      alookup (L.foldl actStep act) s =
        accEntry (alookup act s)
          (L.filter (fun p => (evaluate_rule p.1 p.2).matched && p.2.symbol == s)) := by
  induction L with
  | nil =>
    intro act s
    rw [List.foldl_nil, List.filter_nil]
    cases alookup act s <;> rfl
  | cons p L ih =>
    intro act s
    rw [List.foldl_cons, ih]
    unfold actStep
    by_cases h1 : p.1.symbols ≠ [] ∧ p.2.symbol ∉ normFilter p.1.symbols
    · rw [if_pos h1]
      rw [List.filter_cons_of_neg (by
        simp only [Bool.and_eq_true, not_and]
        intro hm
        exact absurd hm (by rw [prefilter_skip_not_matched p.1 p.2 h1]; simp))]
    · rw [if_neg h1]
      by_cases h2 : (evaluate_rule p.1 p.2).matched = true
      · rw [if_pos h2]
        by_cases hs : (p.2.symbol == s) = true
        · have hseq : p.2.symbol = s := (beq_iff_eq).mp hs
          rw [List.filter_cons_of_pos (by simp [h2, hs])]
          rw [alookup_addMatch act p s]
          rw [if_pos hseq.symm]
          rw [← hseq]
          cases halook : alookup act p.2.symbol <;> rfl
        · rw [List.filter_cons_of_neg (by simp [hs])]
          rw [alookup_addMatch act p s]
          rw [if_neg (fun hc => absurd ((beq_iff_eq).mpr hc.symm) (by simpa using hs))]
      · rw [if_neg h2]
        rw [List.filter_cons_of_neg (by simp [h2])]

theorem accEntry_some (ps : List (AutomationRule × Signal)) :
    ∀ e : Activation, ∃ e2, accEntry (some e) ps = some e2 ∧
      e2.symbol = e.symbol ∧ e2.market_phase = e.market_phase ∧ e2.bias = e.bias ∧
      e2.confidence = e.confidence ∧ e2.timeframes = e.timeframes ∧
      (∀ x, x ∈ e2.directions ↔ x ∈ e.directions ∨
        ∃ p ∈ ps, x = ((evaluate_rule p.1 p.2).direction).getD "") ∧
      (e.directions.Nodup → e2.directions.Nodup) := by
  induction ps with
  | nil =>
    intro e
    exact ⟨e, rfl, rfl, rfl, rfl, rfl, rfl, fun x => by simp, fun h => h⟩
  | cons p ps ih =>
    intro e
    obtain ⟨e2, he2, hsym, hmp, hb, hc, htf, hdirs, hnd⟩ := ih (extendActivation e p)
    refine ⟨e2, he2, hsym, hmp, hb, hc, htf, ?_, ?_⟩
    · intro x
      rw [hdirs x]
      unfold extendActivation
      dsimp only
      rw [mem_setAdd]
      constructor
      · rintro ((hx | rfl) | ⟨q, hq, rfl⟩)
        · exact Or.inl hx
        · exact Or.inr ⟨p, List.mem_cons_self p ps, rfl⟩
        · exact Or.inr ⟨q, List.mem_cons_of_mem p hq, rfl⟩
      · rintro (hx | ⟨q, hq, rfl⟩)
        · exact Or.inl (Or.inl hx)
        · rcases List.mem_cons.mp hq with rfl | hq
          · exact Or.inl (Or.inr rfl)
          · exact Or.inr ⟨q, hq, rfl⟩
    · intro h
      exact hnd (nodup_setAdd _ _ h)

theorem keys_map_replace {α : Type} (act : List (String × α)) (sym : String) (v : α) :
    (act.map (fun q => if q.1 == sym then (sym, v) else q)).map Prod.fst =
      act.map Prod.fst := by
  rw [List.map_map]
  apply List.map_congr_left
  intro q hq
  by_cases hk : (q.1 == sym) = true
  · simp only [Function.comp, hk, if_true]
    exact ((beq_iff_eq).mp hk).symm
  · simp only [Function.comp, hk, if_false]
    rfl

theorem keys_map_fst_actStep (act : List (String × Activation))
    (p : AutomationRule × Signal) (h : (act.map Prod.fst).Nodup) :
    ((actStep act p).map Prod.fst).Nodup := by
  unfold actStep
  by_cases h1 : p.1.symbols ≠ [] ∧ p.2.symbol ∉ normFilter p.1.symbols
  · rw [if_pos h1]; exact h
  · rw [if_neg h1]
    by_cases h2 : (evaluate_rule p.1 p.2).matched = true
    · rw [if_pos h2]
      unfold addMatch
      dsimp only
      by_cases hpres : act.any (fun q => q.1 == p.2.symbol) = true
      · rw [if_pos hpres, keys_map_replace]
        exact h
      · rw [if_neg hpres]
        have hpf : act.any (fun q => q.1 == p.2.symbol) = false := by
          cases hx : act.any (fun q => q.1 == p.2.symbol)
          · rfl
          · exact absurd hx hpres
        rw [List.map_append]
        simp only [List.map_cons, List.map_nil]
        rw [List.nodup_append]
        refine ⟨h, List.nodup_singleton _, ?_⟩
        intro a ha hb
        have hab : a = p.2.symbol := by simpa using hb
        subst hab
        rcases List.mem_map.mp ha with ⟨q, hq, hqs⟩
        have := List.any_eq_false.mp hpf q hq
        simp [hqs] at this
    · rw [if_neg h2]; exact h

theorem keys_nodup_foldl (L : List (AutomationRule × Signal)) :
    ∀ act : List (String × Activation), (act.map Prod.fst).Nodup →
      ((L.foldl actStep act).map Prod.fst).Nodup := by
  induction L with
  | nil => intro act h; exact h
  | cons p L ih =>
    intro act h
    rw [List.foldl_cons]
    exact ih _ (keys_map_fst_actStep act p h)

theorem alookup_filterMap_resolve (act : List (String × Activation)) (s : String)
    (hnd : (act.map Prod.fst).Nodup) :
    alookup (act.filterMap (fun q => (resolveEntry q.2).map (fun ap => (q.1, ap)))) s =
      (alookup act s).bind resolveEntry := by
  induction act with
  | nil => rfl
  | cons q rest ih =>
    cases q with
    | mk k e =>
      simp only [List.map_cons, List.nodup_cons] at hnd
      rw [List.filterMap_cons]
      cases hre : resolveEntry e with
      | none =>
        simp only [Option.map_none']
        rw [alookup_cons]
        by_cases hk : (k == s) = true
        · rw [if_pos hk]
          have hks : k = s := (beq_iff_eq).mp hk
          rw [ih hnd.2]
          rw [alookup_eq_none_of_not_mem rest s (by rw [← hks]; exact hnd.1)]
          simp [hre]
        · rw [if_neg hk]
          exact ih hnd.2
      | some ap =>
        simp only [Option.map_some']
        rw [alookup_cons, alookup_cons]
        by_cases hk : (k == s) = true
        · rw [if_pos hk, if_pos hk]
          simp [hre]
        · rw [if_neg hk, if_neg hk]
          exact ih hnd.2

theorem mem_insSorted {α : Type} (le : α → α → Bool) (x a : α) :
    ∀ l : List α, a ∈ insSorted le x l ↔ a = x ∨ a ∈ l := by
  intro l
  induction l with
  | nil => simp [insSorted]
  | cons y ys ih =>
    unfold insSorted
    by_cases h : le x y = true
    · rw [if_pos h]
      simp
    · rw [if_neg h]
      simp only [List.mem_cons, ih]
      tauto

theorem mem_pySorted {α : Type} (le : α → α → Bool) (a : α) :
    ∀ l : List α, a ∈ pySorted le l ↔ a ∈ l := by
  intro l
  induction l with
  | nil => simp [pySorted]
  | cons y ys ih =>
    unfold pySorted
    rw [mem_insSorted]
    simp only [List.mem_cons, ih]

theorem pySorted_eq_nil_iff {α : Type} (le : α → α → Bool) (l : List α) :
    pySorted le l = [] ↔ l = [] := by
  cases l with
  | nil => simp [pySorted]
  | cons y ys =>
    simp only [pySorted]
    constructor
    · intro h
      exfalso
      have : y ∈ insSorted le y (pySorted le ys) := (mem_insSorted le y y _).mpr (Or.inl rfl)
      rw [h] at this
      cases this
    · intro h
      cases h

/-- `resolveEntry` publishes exactly the unanimous non-empty direction and
copies the accumulated metadata. -/
theorem resolveEntry_char (e : Activation) (hne : ∀ x ∈ e.directions, x ≠ "") :
    ((resolveEntry e).isSome ↔
      (e.directions ≠ [] ∧ ∃ d, ∀ x ∈ e.directions, x = d)) ∧
    (∀ ap, resolveEntry e = some ap →
      ap.market_phase = e.market_phase ∧ ap.bias = e.bias ∧
        ap.confidence = e.confidence ∧ (∀ x ∈ e.directions, ap.direction = x)) := by
  have hfe : e.directions.filter (fun d => d ≠ "") = e.directions := by
    rw [List.filter_eq_self]
    intro a ha
    simpa using hne a ha
  unfold resolveEntry
  rw [hfe]
  constructor
  · cases hsl : pySorted strLeb e.directions with
    | nil =>
      simp only [Option.isSome_none, Bool.false_eq_true, false_iff, not_and, not_exists]
      intro hdir
      exact absurd ((pySorted_eq_nil_iff strLeb e.directions).mp hsl) hdir
    | cons d rest =>
      dsimp only
      by_cases hall : rest.all (fun x => x == d) = true
      · rw [if_pos hall]
        simp only [Option.isSome_some, true_iff]
        constructor
        · intro hc
          rw [hc] at hsl
          have : pySorted strLeb [] = ([] : List String) := rfl
          rw [this] at hsl
          cases hsl
        · refine ⟨d, fun x hx => ?_⟩
          have hxs : x ∈ pySorted strLeb e.directions := (mem_pySorted strLeb x _).mpr hx
          rw [hsl] at hxs
          rcases List.mem_cons.mp hxs with rfl | hxs
          · rfl
          · exact (beq_iff_eq).mp (List.all_eq_true.mp hall x hxs)
      · rw [if_neg hall]
        simp only [Option.isSome_none, Bool.false_eq_true, false_iff, not_and, not_exists]
        intro hdir d0 hd0
        apply hall
        rw [List.all_eq_true]
        intro x hx
        have hxm : x ∈ e.directions := by
          have : x ∈ pySorted strLeb e.directions := by rw [hsl]; exact List.mem_cons_of_mem d hx
          exact (mem_pySorted strLeb x _).mp this
        have hdm : d ∈ e.directions := by
          have : d ∈ pySorted strLeb e.directions := by rw [hsl]; exact List.mem_cons_self d rest
          exact (mem_pySorted strLeb d _).mp this
        rw [hd0 x hxm, hd0 d hdm]
        exact (beq_iff_eq).mpr rfl
  · intro ap hap
    cases hsl : pySorted strLeb e.directions with
    | nil =>
      rw [hsl] at hap
      dsimp only at hap
      cases hap
    | cons d rest =>
      rw [hsl] at hap
      dsimp only at hap
      by_cases hall : rest.all (fun x => x == d) = true
      · rw [if_pos hall] at hap
        cases hap
        refine ⟨rfl, rfl, rfl, fun x hx => ?_⟩
        have hxs : x ∈ pySorted strLeb e.directions := (mem_pySorted strLeb x _).mpr hx
        rw [hsl] at hxs
        dsimp only
        rcases List.mem_cons.mp hxs with rfl | hxs
        · rfl
        · exact ((beq_iff_eq).mp (List.all_eq_true.mp hall x hxs)).symm
      · rw [if_neg hall] at hap
        cases hap

/-- The published active-pair lookup factored through the accumulated
matching pairs. -/
theorem evaluate_rules_lookup (signals : List Signal) (rules : List AutomationRule)
    (s : String) :
    alookup (evaluate_rules signals rules).2 s =
      (accEntry none (matchedPairs signals rules s)).bind resolveEntry := by
  unfold evaluate_rules
  dsimp only
  have hact : ((rulePairs signals rules).foldl stepPair ([], [])).2 =
      (rulePairs signals rules).foldl actStep [] :=
    foldl_stepPair_snd (rulePairs signals rules) ([], [])
  rw [hact]
  rw [alookup_filterMap_resolve _ s (keys_nodup_foldl (rulePairs signals rules) [] (by simp))]
  rw [alookup_foldl_actStep (rulePairs signals rules) [] s]
  rfl

theorem matched_direction_cases (rule : AutomationRule) (sig : Signal)
    (h : (evaluate_rule rule sig).matched = true) :
    (evaluate_rule rule sig).direction = some "buy" ∨
      (evaluate_rule rule sig).direction = some "sell" := by
  rw [evaluate_rule_direction_char, if_pos h]
  by_cases hb : normUp sig.bias = "BULLISH"
  · left; rw [if_pos hb]
  · right; rw [if_neg hb]

theorem mem_matchedPairs (signals : List Signal) (rules : List AutomationRule)
    (symbol : String) (p : AutomationRule × Signal)
    (hp : p ∈ matchedPairs signals rules symbol) :
    (evaluate_rule p.1 p.2).matched = true ∧ p.2.symbol = symbol := by
  have := List.of_mem_filter hp
  simp only [Bool.and_eq_true, beq_iff_eq] at this
  exact this

/-- The accumulated entry for a symbol with at least one match: metadata
from the first match, direction set exactly the matched directions. -/
theorem accEntry_head (signals : List Signal) (rules : List AutomationRule)
    (symbol : String) (p : AutomationRule × Signal) (ps : List (AutomationRule × Signal))
    (hM : matchedPairs signals rules symbol = p :: ps) :
    ∃ e2, accEntry none (p :: ps) = some e2 ∧
      e2.market_phase = p.2.market_phase ∧ e2.bias = p.2.bias ∧
      e2.confidence = p.2.confidence ∧
      (∀ x ∈ e2.directions, x ≠ "") ∧
      (∀ x, x ∈ e2.directions ↔
        ∃ q ∈ p :: ps, x = ((evaluate_rule q.1 q.2).direction).getD "") := by
  obtain ⟨e2, he2, hsym, hmp, hb, hc, htf, hdirs, hnd⟩ :=
    accEntry_some ps (extendActivation (initActivation p) p)
  have h0 : (extendActivation (initActivation p) p).directions =
      [((evaluate_rule p.1 p.2).direction).getD ""] := by
    unfold extendActivation initActivation setAdd
    simp
  have hmemchar : ∀ x, x ∈ e2.directions ↔
      ∃ q ∈ p :: ps, x = ((evaluate_rule q.1 q.2).direction).getD "" := by
    intro x
    rw [hdirs x, h0]
    constructor
    · rintro (hx | ⟨q, hq, rfl⟩)
      · exact ⟨p, List.mem_cons_self p ps, by simpa using hx⟩
      · exact ⟨q, List.mem_cons_of_mem p hq, rfl⟩
    · rintro ⟨q, hq, rfl⟩
      rcases List.mem_cons.mp hq with rfl | hq
      · exact Or.inl (by simp)
      · exact Or.inr ⟨q, hq, rfl⟩
  refine ⟨e2, he2, ?_, ?_, ?_, ?_, hmemchar⟩
  · rw [hmp]; rfl
  · rw [hb]; rfl
  · rw [hc]; rfl
  · intro x hx
    rcases (hmemchar x).mp hx with ⟨q, hq, rfl⟩
    have hqm := (mem_matchedPairs signals rules symbol q (by rw [hM]; exact hq)).1
    rcases matched_direction_cases q.1 q.2 hqm with hd | hd <;> rw [hd] <;> decide

/-! ## C2 — conflict policy of the aggregated active pairs -/

/-- C2: a symbol appears in the `active_pairs` mapping of `evaluate_rules`
iff it has at least one matching `(rule, signal)` evaluation and all its
matches resolve to one single direction; a symbol whose matches include
both `buy` and `sell` is absent. -/
theorem active_pairs_conflict_policy (signals : List Signal) (rules : List AutomationRule)
    (symbol : String) :
    ((alookup (evaluate_rules signals rules).2 symbol).isSome ↔
      (matchedPairs signals rules symbol ≠ [] ∧
        ∃ d, ∀ p ∈ matchedPairs signals rules symbol,
          (evaluate_rule p.1 p.2).direction = some d)) ∧
    ((∃ p ∈ matchedPairs signals rules symbol,
        (evaluate_rule p.1 p.2).direction = some "buy") →
      (∃ p ∈ matchedPairs signals rules symbol,
        (evaluate_rule p.1 p.2).direction = some "sell") →
      alookup (evaluate_rules signals rules).2 symbol = none) := by
  have hlk := evaluate_rules_lookup signals rules symbol
  have hmain : (alookup (evaluate_rules signals rules).2 symbol).isSome = true ↔
      (matchedPairs signals rules symbol ≠ [] ∧
        ∃ d, ∀ p ∈ matchedPairs signals rules symbol,
          (evaluate_rule p.1 p.2).direction = some d) := by
    cases hM : matchedPairs signals rules symbol with
    | nil =>
      rw [hlk, hM]
      simp [accEntry]
    | cons p ps =>
      rw [hlk, hM]
      obtain ⟨e2, he2, hmp, hb, hc, hne, hmem⟩ :=
        accEntry_head signals rules symbol p ps hM
      rw [he2]
      show (resolveEntry e2).isSome = true ↔ _
      rw [(resolveEntry_char e2 hne).1]
      have hnonempty : e2.directions ≠ [] := by
        intro hc2
        have : ((evaluate_rule p.1 p.2).direction).getD "" ∈ e2.directions :=
          (hmem _).mpr ⟨p, List.mem_cons_self p ps, rfl⟩
        rw [hc2] at this
        cases this
      constructor
      · rintro ⟨-, d, hd⟩
        refine ⟨List.cons_ne_nil p ps, d, fun q hq => ?_⟩
        have hqm := (mem_matchedPairs signals rules symbol q (by rw [hM]; exact hq)).1
        have hx : ((evaluate_rule q.1 q.2).direction).getD "" ∈ e2.directions :=
          (hmem _).mpr ⟨q, hq, rfl⟩
        have hxd := hd _ hx
        rcases matched_direction_cases q.1 q.2 hqm with hdir | hdir <;>
          rw [hdir] <;> rw [hdir] at hxd <;> simp at hxd <;> rw [hxd]
      · rintro ⟨-, d, hd⟩
        refine ⟨hnonempty, d, fun x hx => ?_⟩
        rcases (hmem x).mp hx with ⟨q, hq, rfl⟩
        rw [hd q hq]
        rfl
  constructor
  · exact hmain
  · rintro ⟨p1, hp1, hd1⟩ ⟨p2, hp2, hd2⟩
    rw [← Option.not_isSome_iff_eq_none]
    intro hsome
    obtain ⟨-, d, hd⟩ := hmain.mp hsome
    have h1 := hd p1 hp1
    have h2 := hd p2 hp2
    rw [hd1] at h1
    rw [hd2] at h2
    have : ("buy" : String) = "sell" := by
      have e1 : d = "buy" := by injection h1.symm
      have e2 : d = "sell" := by injection h2.symm
      rw [← e1, e2]
    exact absurd this (by decide)

/-- Witness for C2: with one bullish and one bearish rule over a buy-match
and a sell-match for EURUSD, both directions are matched and the symbol is
absent from the published pairs. -/
theorem active_pairs_conflict_policy_witness :
    alookup (evaluate_rules [sigBull, sigBear] [ruleBull, ruleBear]).2 "EURUSD" = none := by
  apply (active_pairs_conflict_policy [sigBull, sigBear] [ruleBull, ruleBear] "EURUSD").2
  · exact ⟨(ruleBull, sigBull), by decide, by decide⟩
  · exact ⟨(ruleBear, sigBear), by decide, by decide⟩

/-! ## C8 — which match's metadata is published -/

/-- C8 (amended): for a symbol present in `active_pairs`, the published
`market_phase`, `bias` and `confidence` are those of the FIRST matching
`(rule, signal)` evaluation in evaluation order (the `setdefault` default
is never overwritten by later matches) — not the most recent one. -/
theorem active_pair_metadata_first_match (signals : List Signal)
    (rules : List AutomationRule) (symbol : String) (ap : ActivePair)
    (p : AutomationRule × Signal) (ps : List (AutomationRule × Signal))
    (hlk2 : alookup (evaluate_rules signals rules).2 symbol = some ap)
    (hM : matchedPairs signals rules symbol = p :: ps) :
    ap.market_phase = p.2.market_phase ∧ ap.bias = p.2.bias ∧
      ap.confidence = p.2.confidence := by
  have hlk := evaluate_rules_lookup signals rules symbol
  rw [hlk, hM] at hlk2
  obtain ⟨e2, he2, hmp, hb, hc, hne, hmem⟩ := accEntry_head signals rules symbol p ps hM
  rw [he2] at hlk2
  have hre : resolveEntry e2 = some ap := hlk2
  obtain ⟨hap1, hap2, hap3, -⟩ := (resolveEntry_char e2 hne).2 ap hre
  exact ⟨hap1.trans hmp, hap2.trans hb, hap3.trans hc⟩

/-- Witness for C8 (amended): two bullish EURUSD signals match the same
rule; the published metadata is the first first signal values (`RANGE`, confidence
1), not the later ones. -/
theorem active_pair_metadata_first_match_witness :
    apRange.market_phase = sigBull.market_phase ∧ apRange.bias = sigBull.bias ∧
      apRange.confidence = sigBull.confidence :=
  active_pair_metadata_first_match [sigBull, sigBull2] [ruleBull] "EURUSD" apRange
    (ruleBull, sigBull) [(ruleBull, sigBull2)] (by decide) (by decide)

/-- Counterexample for C8 as stated: both EURUSD signals match, the most
recent matching signal carries phase EXPANSION / confidence 2, yet the
published entry keeps the first match's RANGE / confidence 1. -/
theorem active_pair_metadata_counterexample :
    (evaluate_rule ruleBull sigBull).matched = true ∧
      (evaluate_rule ruleBull sigBull2).matched = true ∧
      sigBull2.market_phase = some "EXPANSION" ∧
      ((evaluate_rules [sigBull, sigBull2] [ruleBull]).2.map
        (fun q => q.2.market_phase)) = [some "RANGE"] ∧
      ¬((some "RANGE" : Option String) = some "EXPANSION") := by
  refine ⟨by decide, by decide, by decide, by decide, by decide⟩

/-- Witness for C7 (amended): a name-only update and a delete aimed at a
nonexistent rule id leave the one-row table unchanged and return
`False`. -/
theorem rule_mutation_scoped_witness :
    update_rule [dbRule1] 999 "alice" nameUpdate = ([dbRule1], false) ∧
      delete_rule [dbRule1] 999 "alice" = ([dbRule1], false) := by
  have h := rule_mutation_scoped [dbRule1] 999 "alice" nameUpdate
  exact ⟨h.1 (by decide) (by decide), h.2.1 (by decide)⟩

/-- Witness for C9 (amended): a `data` list of exactly the page size, no
`next` and no page counters — the fallback requests page 2. -/
theorem detect_next_fallback_witness :
    detect_next 2 (.obj [("data", .arr [.null, .null])]) "u" (some 1) =
      (some "u", some 2) := by
  have h := detect_next_fallback 2 [("data", .arr [.null, .null])] "u" (some 1)
    (by decide) (by decide)
  exact h.2 [.null, .null] (by decide) (by decide)

end M19
